import Mathlib

/-!
Verification development for the Indicus replica transaction engine
(`src/store/indicusstore/server.cc`).

The definitions below are a shallow embedding of the replica-side state and of
the message handlers that the verified properties talk about.  Maps
(`tbb::concurrent_hash_map`, `std::unordered_map`) are embedded as functions
out of `String` (transaction digests and keys are strings in the source);
C++ sets and ordered maps become lists, iterated in the order the source
iterates them.  Network sends and signing are outside the replica state and
are dropped; a handler's reply is returned as a value instead.
-/

namespace Indicus

/-- Modelled from the spec: the `Timestamp` class (`store/common/timestamp.h`
is not part of the sources given).  A logical timestamp is the pair
`T = (ms, client_id)`; timestamps are compared lexicographically, with the
millisecond component first and the client id as tie break. -/
structure TS where
  t : Nat
  id : Nat
deriving DecidableEq, Repr

/-- Lexicographic strict order on timestamps. -/
def TS.lt (a b : TS) : Bool := a.t < b.t || (a.t = b.t && a.id < b.id)

/-- Lexicographic reflexive order on timestamps. -/
def TS.le (a b : TS) : Bool := a.t < b.t || (a.t = b.t && a.id ≤ b.id)

/-- Result type of the concurrency-control check
(`proto::ConcurrencyControl::Result`). -/
inductive CCResult where
  | Commit
  | Abstain
  | Abort
  | Wait
deriving DecidableEq, Repr

/-- Commit decision carried by Phase2 and the fallback messages
(`proto::CommitDecision`). -/
inductive CommitDecision where
  | COMMIT
  | ABORT
deriving DecidableEq, Repr

/-- One read of the transaction's read set: `(key, readtime)`. -/
structure ReadOp where
  key : String
  readtime : TS
deriving DecidableEq, Repr

/-- One write of the transaction's write set: `(key, value)`. -/
structure WriteOp where
  key : String
  value : String
deriving DecidableEq, Repr

/-- The `write` sub-record of a dependency (`dep.write()` in the source):
the digest of the transaction whose prepared write was read, and the
timestamp at which it prepared. -/
structure DepWrite where
  prepared_txn_digest : String
  prepared_timestamp : TS
deriving DecidableEq, Repr

/-- One dependency of a transaction (`proto::Dependency`). -/
structure Dep where
  write : DepWrite
  involved_group : Int
deriving DecidableEq, Repr

/-- The transaction record (`proto::Transaction`), restricted to the fields
the replica-side handlers read. -/
structure Transaction where
  client_id : Nat
  client_seq_num : Nat
  timestamp : TS
  read_set : List ReadOp
  write_set : List WriteOp
  deps : List Dep
deriving DecidableEq, Repr

/-- A versioned value of the multi-version store (`Server::Value`): the value
together with its committed proof.  Proofs are opaque to the properties
verified here and are embedded as numeric handles. -/
structure Value where
  val : String
  proof : Nat
deriving DecidableEq, Repr

/-- P1 metadata per digest (`P1MetaData` of `server.h`, whose shape is fixed
by its uses in `server.cc`): the buffered concurrency-control result, the
committed-conflict proof attached to an ABORT, and the `hasP1` flag. -/
structure P1Meta where
  hasP1 : Bool
  result : CCResult
  conflict : Option Nat
deriving DecidableEq, Repr

/-- Fresh P1 metadata, as created by `p1MetaData.insert` for an unseen
digest: no result buffered yet. -/
def p1MetaInit : P1Meta := { hasP1 := false, result := CCResult.Commit, conflict := none }

/-- P2 metadata per digest (`P2MetaData` of `server.h`, shape fixed by its
uses in `server.cc`): the p2 decision, the view it was decided in, the view
this replica has moved to, and the subscription of the original client. -/
structure P2Meta where
  hasP2 : Bool
  p2Decision : CommitDecision
  decision_view : Nat
  current_view : Nat
  has_original : Bool
  original_msg_id : Nat
  original_address : Nat
deriving DecidableEq, Repr

/-- Fresh P2 metadata, as created by `p2MetaDatas.insert` for an unseen
digest: no decision, views at zero. -/
def p2MetaInit : P2Meta :=
  { hasP2 := false, p2Decision := CommitDecision.COMMIT, decision_view := 0,
    current_view := 0, has_original := false, original_msg_id := 0, original_address := 0 }

/-- Entry of `waitingDependencies_new`: the caller registered for
notification and the set of still unresolved dependencies. -/
structure WaitingDep where
  original_client : Bool
  reqId : Nat
  remote : Nat
  deps : List String
deriving DecidableEq, Repr

/-- Fresh `WaitingDependency` entry. -/
def waitingDepInit : WaitingDep :=
  { original_client := false, reqId := 0, remote := 0, deps := [] }

/-- Configuration parameters of the replica (subset of `Parameters` that the
embedded handlers consult). -/
structure Params where
  validateProofs : Bool
  signedMessages : Bool
  verifyDeps : Bool
  maxDepDepth : Int
  no_fallback : Bool
  multiThreading : Bool
  mainThreadDispatching : Bool
  dispatchMessageReceive : Bool
deriving DecidableEq, Repr

/-- Pointwise update of a map embedded as a function. -/
def updf {α : Type} (f : String → α) (k : String) (v : α) : String → α :=
  fun k' => if k' = k then v else f k'

/-- Set insert for a list used as a `std::set` (no duplicates). -/
def insertStr (x : String) (l : List String) : List String :=
  if l.contains x then l else l ++ [x]

/-- The replica-side state of `Server` that the verified handlers touch. -/
structure ServerState where
  committed : String → Bool
  aborted : String → Bool
  ongoing : String → Option Transaction
  prepared : String → Option (TS × Transaction)
  preparedReads : String → List Transaction
  preparedWrites : String → List (TS × Transaction)
  committedReads : String → List (TS × TS × Nat)
  store : String → List (TS × Value)
  rts : String → Option Nat
  p1Meta : String → Option P1Meta
  p2Meta : String → Option P2Meta
  dependents : String → List String
  waiting : String → Option WaitingDep
  writebackMessages : String → Bool

/-- Embeds `Server::CheckHighWatermark`: the local clock plus `timeDelta`
forms the high watermark; a timestamp is beyond it iff it is strictly
greater. -/
def checkHighWatermark (ts : TS) (localTime timeDelta : Nat) : Bool :=
  TS.lt { t := localTime + timeDelta, id := 0 } ts

/-- Modelled from the spec: `store.get(key, as_of_ts)` of the multi-version
store (`store/common/backend/versionstore.cc` is not part of the sources
given) returns the largest version with timestamp at most `as_of_ts`. -/
def storeGet (versions : List (TS × Value)) (ts : TS) : Option (TS × Value) :=
  versions.foldl
    (fun best v =>
      if TS.le v.fst ts then
        match best with
        | none => some v
        | some b => if TS.lt b.fst v.fst then some v else some b
      else best)
    none

/-- Embeds `Server::DependencyDepth`: breadth-first walk of the dependency
graph through `ongoing`, returning the largest depth reached.  The source's
loop terminates because dependencies are acyclic; the embedding makes that
explicit with a fuel argument. -/
def dependencyDepth (ongoing : String → Option Transaction) :
    Nat → List (Transaction × Nat) → Nat → Nat
  | _, [], acc => acc
  | 0, _, acc => acc
  | fuel + 1, (txn, d) :: q, acc =>
      let next := txn.deps.filterMap
        (fun dep => (ongoing dep.write.prepared_txn_digest).map (fun t => (t, d + 1)))
      dependencyDepth ongoing fuel (q ++ next) (max acc d)

/-- Reply to a `Read` (`proto::ReadReply`), restricted to the `write` part:
the committed version found at the read timestamp and the optional most
recent prepared write attached as a dependency. -/
structure ReadReply where
  committedVal : Option (TS × Value)
  preparedVal : Option (TS × Transaction)
deriving DecidableEq, Repr

/-- Embeds the MVTSO branch of `Server::HandleRead`: reject a read beyond the
high watermark; look up the most recent committed version; advance the
single read-timestamp high-water mark `rts[key]` if the read's timestamp is
strictly larger; attach the most recent prepared write whose dependency
depth is acceptable.  `fuel` bounds the dependency-depth walk (see
`dependencyDepth`). -/
def handleRead (p : Params) (localTime timeDelta fuel : Nat) (s : ServerState)
    (key : String) (ts : TS) : ServerState × Option ReadReply :=
  if checkHighWatermark ts localTime timeDelta then (s, none)
  else
    let committedVal := storeGet (s.store key) ts
    let rts' :=
      match s.rts key with
      | some v => if ts.t > v then updf s.rts key (some ts.t) else s.rts
      | none => updf s.rts key (some ts.t)
    let s1 := { s with rts := rts' }
    let preparedVal :=
      if p.maxDepDepth > -2 then
        match (s.preparedWrites key).foldl
            (fun most tw =>
              match most with
              | none => some tw
              | some m => if TS.lt m.fst tw.fst then some tw else some m)
            none with
        | some mostRecent =>
            if p.maxDepDepth = -1 ∨
                (dependencyDepth s1.ongoing fuel [(mostRecent.snd, 0)] 0 : Int) ≤ p.maxDepDepth then
              some mostRecent
            else none
        | none => none
      else none
    (s1, some { committedVal := committedVal, preparedVal := preparedVal })

/-- The signed inner record of a client `Abort` message
(`proto::AbortInternal`): the aborting client's timestamp and read set. -/
structure AbortInternal where
  ts : TS
  read_set : List String
deriving DecidableEq, Repr

/-- A client `Abort` message as seen by `Server::HandleAbort`: either a
signed internal record (with the signer's process id and the signature's
validity as established by the verifier) or a plain internal record. -/
structure AbortMsg where
  signed : Bool
  sigValid : Bool
  process_id : Nat
  internal : AbortInternal
deriving DecidableEq, Repr

/-- Embeds `Server::HandleAbort`: with proofs and signatures enabled the
signature is verified and the signer must match the internal timestamp's
client id; the RTS-invalidation loop of the set-based RTS design is disabled
in the source (the single replacing RTS is in use), so the handler leaves
the replica state unchanged on every path. -/
def handleAbort (p : Params) (s : ServerState) (msg : AbortMsg) : ServerState :=
  if p.validateProofs && p.signedMessages then
    if !msg.signed then s
    else if !msg.sigValid then s
    else if msg.internal.ts.id ≠ msg.process_id then s
    else s
  else s

/-- Embeds `Server::GetCommittedWrites`, which forwards to
`store.getCommittedAfter`.  Modelled from the spec for the store part
(`versionstore.cc` is not among the sources given):
`get_committed_after(key, ts)` returns all versions strictly greater than
`ts`. -/
def getCommittedWrites (versions : List (TS × Value)) (rt : TS) : List (TS × Value) :=
  versions.filter (fun v => TS.lt rt v.fst)

/-- Embeds the read-side loop of `Server::DoMVTSOOCCCheck` (one entry per
read of the read set, in order): a committed write between the read version
and the transaction timestamp returns ABORT with that write's committed
proof as conflict; otherwise a prepared write strictly between them returns
ABSTAIN and records the prepared transaction as the abstain conflict. -/
def readConflictCheck (p : Params) (s : ServerState) (own : String → Bool) (ts : TS) :
    List ReadOp → Option (CCResult × Option Nat × Option Transaction)
  | [] => none
  | r :: rest =>
    if own r.key then
      match (getCommittedWrites (s.store r.key) r.readtime).find?
          (fun w => TS.lt w.fst ts) with
      | some w =>
          some (CCResult.Abort, if p.validateProofs then some w.snd.proof else none, none)
      | none =>
        match (s.preparedWrites r.key).find?
            (fun pw => TS.lt r.readtime pw.fst && TS.lt pw.fst ts) with
        | some pw => some (CCResult.Abstain, none, some pw.snd)
        | none => readConflictCheck p s own ts rest
    else readConflictCheck p s own ts rest

/-- Embeds the committed-reads loop inside the write-side of
`Server::DoMVTSOOCCCheck`.  The source iterates the per-key
`committedReads` set from the largest committed timestamp downwards (the
list here is in that iteration order, each entry
`(commit-ts, read-ts, proof)`), breaks as soon as the transaction timestamp
is at least the committed timestamp, and aborts when the committed read's
version is below the transaction timestamp. -/
def committedReadCheck (ts : TS) : List (TS × TS × Nat) → Option Nat
  | [] => none
  | (cts, rt, proof) :: rest =>
    if TS.le cts ts then none
    else if TS.lt rt ts then some proof
    else committedReadCheck ts rest

/-- Embeds the prepared-reads loop inside the write-side of
`Server::DoMVTSOOCCCheck`: a prepared reader of the written key conflicts
when it does not depend on this transaction, its read version for the key is
earlier than the transaction timestamp, and its own timestamp is later. -/
def preparedReadConflict (txnDigest : String) (ts : TS) (key : String)
    (readers : List Transaction) : Bool :=
  readers.any (fun prt =>
    let isDep := prt.deps.any (fun dep => dep.write.prepared_txn_digest = txnDigest)
    let isReadVersionEarlier :=
      match prt.read_set.find? (fun r => r.key = key) with
      | some r => TS.lt r.readtime ts
      | none => false
    !isDep && isReadVersionEarlier && TS.lt ts prt.timestamp)

/-- Embeds the write-side loop of `Server::DoMVTSOOCCCheck` (one entry per
write of the write set, in order): committed-read conflicts ABORT, prepared
read conflicts ABSTAIN, and a single replacing RTS strictly above the
transaction's millisecond timestamp ABSTAINs. -/
def writeConflictCheck (p : Params) (s : ServerState) (own : String → Bool)
    (txnDigest : String) (ts : TS) :
    List WriteOp → Option (CCResult × Option Nat)
  | [] => none
  | w :: rest =>
    if own w.key then
      match committedReadCheck ts (s.committedReads w.key) with
      | some proof => some (CCResult.Abort, if p.validateProofs then some proof else none)
      | none =>
        if preparedReadConflict txnDigest ts w.key (s.preparedReads w.key) then
          some (CCResult.Abstain, none)
        else
          match s.rts w.key with
          | some v =>
              if ts.t < v then some (CCResult.Abstain, none)
              else writeConflictCheck p s own txnDigest ts rest
          | none => writeConflictCheck p s own txnDigest ts rest
    else writeConflictCheck p s own txnDigest ts rest

/-- Embeds the dependency-closure guard of `Server::DoMVTSOOCCCheck`: when
proofs and signatures are on but dependencies are not independently
verified, a dependency of this group that is neither committed, aborted nor
locally prepared forces ABSTAIN. -/
def depClosureCheck (p : Params) (gid : Int) (s : ServerState) (deps : List Dep) : Bool :=
  p.validateProofs && p.signedMessages && !p.verifyDeps &&
    deps.any (fun dep =>
      dep.involved_group = gid &&
      !(s.committed dep.write.prepared_txn_digest) &&
      !(s.aborted dep.write.prepared_txn_digest) &&
      (s.prepared dep.write.prepared_txn_digest).isNone)

/-- Ordered-map insert for the per-key `preparedWrites`
(`std::map<Timestamp, Transaction*>`): keeps the list sorted by timestamp
and does not overwrite an existing timestamp. -/
def insertPreparedWrite (ts : TS) (txn : Transaction) :
    List (TS × Transaction) → List (TS × Transaction)
  | [] => [(ts, txn)]
  | (ts0, t0) :: rest =>
    if TS.lt ts ts0 then (ts, txn) :: (ts0, t0) :: rest
    else if ts = ts0 then (ts0, t0) :: rest
    else (ts0, t0) :: insertPreparedWrite ts txn rest

/-- Embeds `Server::Prepare`: a no-op when the transaction is no longer
ongoing; otherwise inserts the digest into `prepared` (keeping an existing
entry), the stored transaction into `preparedReads` of every owned read key,
and the prepared timestamp into `preparedWrites` of every owned write
key. -/
def prepareTxn (own : String → Bool) (txnDigest : String) (txn : Transaction)
    (s : ServerState) : ServerState :=
  match s.ongoing txnDigest with
  | none => s
  | some ongoingTxn =>
    let entry := (s.prepared txnDigest).getD (txn.timestamp, ongoingTxn)
    let s1 := { s with prepared := updf s.prepared txnDigest (some entry) }
    let s2 := txn.read_set.foldl
      (fun acc r =>
        if own r.key then
          if (acc.preparedReads r.key).contains entry.snd then acc
          else { acc with
            preparedReads := updf acc.preparedReads r.key (acc.preparedReads r.key ++ [entry.snd]) }
        else acc)
      s1
    txn.write_set.foldl
      (fun acc w =>
        if own w.key then
          { acc with
            preparedWrites :=
              updf acc.preparedWrites w.key
                (insertPreparedWrite entry.fst entry.snd (acc.preparedWrites w.key)) }
        else acc)
      s2

/-- One step of `Server::ManageDependencies` for a single dependency: a
dependency of this group that is neither committed nor aborted marks the
check unfinished, adds this digest to the dependency's `dependents` set and
the dependency to this digest's waiting set; a caller that is neither a
fallback nor a gossiping replica is recorded for notification. -/
def manageDepStep (gid : Int) (reqId remote : Nat) (fallback_flow replicaGossip : Bool)
    (txnDigest : String) (acc : ServerState × Bool) (dep : Dep) : ServerState × Bool :=
  if dep.involved_group = gid then
    let dd := dep.write.prepared_txn_digest
    if acc.fst.committed dd || acc.fst.aborted dd then acc
    else
      let s1 := { acc.fst with
        dependents := updf acc.fst.dependents dd (insertStr txnDigest (acc.fst.dependents dd)) }
      let wd0 := (s1.waiting txnDigest).getD waitingDepInit
      let wd1 :=
        if !fallback_flow && !replicaGossip then
          { wd0 with original_client := true, reqId := reqId, remote := remote }
        else wd0
      let wd2 := { wd1 with deps := insertStr dd wd1.deps }
      ({ s1 with waiting := updf s1.waiting txnDigest (some wd2) }, false)
  else acc

/-- Embeds `Server::ManageDependencies`: folds `manageDepStep` over the
transaction's dependencies (dependency tracking is disabled when
`maxDepDepth` is `-2` or lower) and reports whether every dependency of this
group is already decided. -/
def manageDependencies (p : Params) (gid : Int) (reqId remote : Nat)
    (fallback_flow replicaGossip : Bool) (txnDigest : String) (txn : Transaction)
    (s : ServerState) : ServerState × Bool :=
  if p.maxDepDepth > -2 then
    txn.deps.foldl (manageDepStep gid reqId remote fallback_flow replicaGossip txnDigest) (s, true)
  else (s, true)

/-- Embeds `Server::CheckDependencies(const proto::Transaction &)`: a
dependency of this group that is not committed resolves to ABSTAIN, as does
a committed one whose prepared timestamp is beyond the transaction's own;
otherwise the transaction resolves to COMMIT. -/
def checkDependenciesTxn (gid : Int) (s : ServerState) (txn : Transaction) : CCResult :=
  go txn.deps
where
  go : List Dep → CCResult
    | [] => CCResult.Commit
    | dep :: rest =>
      if dep.involved_group = gid then
        if s.committed dep.write.prepared_txn_digest then
          if TS.lt txn.timestamp dep.write.prepared_timestamp then CCResult.Abstain
          else go rest
        else CCResult.Abstain
      else go rest

/-- Embeds `Server::CheckDependencies(const std::string &)`: a digest no
longer ongoing is resolved from `committed` and `aborted` (`none` stands for
the source's panic when it is in neither); an ongoing one is checked through
its transaction record. -/
def checkDependenciesDig (gid : Int) (s : ServerState) (txnDigest : String) :
    Option CCResult :=
  match s.ongoing txnDigest with
  | none =>
      if s.committed txnDigest then some CCResult.Commit
      else if s.aborted txnDigest then some CCResult.Abstain
      else none
  | some txn => some (checkDependenciesTxn gid s txn)

/-- Outcome of the concurrency-control check: the result, the
committed-conflict proof attached to an ABORT, the prepared transaction
recorded on a wr-conflict ABSTAIN, and the updated state. -/
structure OCCOutcome where
  result : CCResult
  conflict : Option Nat
  abstainConflict : Option Transaction
  state : ServerState

/-- Embeds the tail of `Server::DoMVTSOOCCCheck` after the conflict checks:
dependencies are managed, an unresolved one yields WAIT, and otherwise the
dependencies are checked for the final COMMIT/ABSTAIN. -/
def occFinish (p : Params) (gid : Int) (reqId remote : Nat)
    (fallback_flow replicaGossip : Bool) (txnDigest : String) (txn : Transaction)
    (s1 : ServerState) : OCCOutcome :=
  let md := manageDependencies p gid reqId remote fallback_flow replicaGossip txnDigest txn s1
  if md.snd then
    { result := checkDependenciesTxn gid md.fst txn, conflict := none,
      abstainConflict := none, state := md.fst }
  else
    { result := CCResult.Wait, conflict := none, abstainConflict := none, state := md.fst }

/-- Embeds `Server::DoMVTSOOCCCheck`: an already prepared transaction skips
straight to dependency management; otherwise the high watermark, the
read-side conflicts, the write-side conflicts and the dependency closure are
checked in order, the transaction is prepared, and unresolved dependencies
yield WAIT while fully resolved ones are checked through
`CheckDependencies`. -/
def doMVTSOOCCCheck (p : Params) (gid : Int) (own : String → Bool)
    (localTime timeDelta : Nat) (reqId remote : Nat)
    (fallback_flow replicaGossip : Bool) (txnDigest : String) (txn : Transaction)
    (s : ServerState) : OCCOutcome :=
  let ts := txn.timestamp
  if (s.prepared txnDigest).isSome then
    occFinish p gid reqId remote fallback_flow replicaGossip txnDigest txn s
  else if checkHighWatermark ts localTime timeDelta then
    { result := CCResult.Abstain, conflict := none, abstainConflict := none, state := s }
  else
    match readConflictCheck p s own ts txn.read_set with
    | some (res, confl, abst) =>
        { result := res, conflict := confl, abstainConflict := abst, state := s }
    | none =>
      match writeConflictCheck p s own txnDigest ts txn.write_set with
      | some (res, confl) =>
          { result := res, conflict := confl, abstainConflict := none, state := s }
      | none =>
        if depClosureCheck p gid s txn.deps then
          { result := CCResult.Abstain, conflict := none, abstainConflict := none, state := s }
        else
          occFinish p gid reqId remote fallback_flow replicaGossip txnDigest txn
            (prepareTxn own txnDigest txn s)

/-- Embeds `Server::BufferP1Result` (both overloads share this body): the
first buffered result wins; a later terminal result adopts the already
buffered terminal result; a terminal result may replace a buffered WAIT; a
WAIT never replaces anything.  Returns the stored metadata together with the
(possibly adopted) result and conflict the caller continues with. -/
def bufferP1Result (meta : Option P1Meta) (result : CCResult) (conflict : Option Nat) :
    P1Meta × CCResult × Option Nat :=
  let m := meta.getD p1MetaInit
  if !m.hasP1 then
    ({ hasP1 := true, result := result, conflict := conflict }, result, conflict)
  else if result ≠ CCResult.Wait then
    if m.result ≠ CCResult.Wait then (m, m.result, m.conflict)
    else ({ hasP1 := true, result := result, conflict := conflict }, result, conflict)
  else (m, result, conflict)

/-- Embeds `Server::HandlePhase1` followed by `Server::HandlePhase1CB`.  The
handler creates the digest's P1 metadata entry if absent; with a buffered
result it replies with the cached decision (registering the caller through
`ManageDependencies` when the cached result is WAIT, and staying silent for
a gossiped message); without one it verifies dependency signatures when
`verifyDeps` is on (`depsValid` is the verifier's verdict), inserts the
transaction into `ongoing`, runs the MVTSO check, buffers its result, and
replies unless the result is WAIT or the message was gossiped.  The reply is
returned as `(result, committed conflict)`; `none` means no reply. -/
def handlePhase1 (p : Params) (gid : Int) (own : String → Bool)
    (localTime timeDelta : Nat) (reqId remote : Nat) (replicaGossip depsValid : Bool)
    (txnDigest : String) (txn : Transaction) (s : ServerState) :
    ServerState × Option (CCResult × Option Nat) :=
  let m := (s.p1Meta txnDigest).getD p1MetaInit
  let s0 := { s with p1Meta := updf s.p1Meta txnDigest (some m) }
  if m.hasP1 && replicaGossip then (s0, none)
  else if m.hasP1 then
    if m.result = CCResult.Wait then
      ((manageDependencies p gid reqId remote false false txnDigest txn s0).fst, none)
    else (s0, some (m.result, m.conflict))
  else
    if p.validateProofs && p.signedMessages && p.verifyDeps && !depsValid then (s0, none)
    else
      let s1 := { s0 with
        p2Meta := updf s0.p2Meta txnDigest (some ((s0.p2Meta txnDigest).getD p2MetaInit)) }
      let s2 := { s1 with ongoing := updf s1.ongoing txnDigest (some txn) }
      let occ := doMVTSOOCCCheck p gid own localTime timeDelta reqId remote false replicaGossip
        txnDigest txn s2
      let br := bufferP1Result (occ.state.p1Meta txnDigest) occ.result occ.conflict
      let s3 := { occ.state with p1Meta := updf occ.state.p1Meta txnDigest (some br.fst) }
      if br.snd.fst = CCResult.Wait || replicaGossip then (s3, none)
      else (s3, some (br.snd.fst, br.snd.snd))

/-- One iteration of the loop in `Server::CheckDependents` for a single
dependent: the resolved digest is removed from the dependent's waiting set;
when that set empties, the dependent is re-evaluated through
`CheckDependencies`, the result is buffered into its P1 metadata, and its
waiting entry is erased.  The source asserts that the waiting entry exists
and panics when the re-evaluated digest is neither ongoing nor decided;
both a failed assertion and a panic stop the replica, embedded as leaving
the state unchanged. -/
def checkDependentsStep (gid : Int) (txnDigest : String) (s : ServerState)
    (dependent : String) : ServerState :=
  match s.waiting dependent with
  | none => s
  | some wd =>
    let deps' := wd.deps.erase txnDigest
    let s0 := { s with waiting := updf s.waiting dependent (some { wd with deps := deps' }) }
    if deps' = [] then
      match checkDependenciesDig gid s0 dependent with
      | none => s
      | some result =>
        let br := bufferP1Result (s0.p1Meta dependent) result none
        let s1 := { s0 with p1Meta := updf s0.p1Meta dependent (some br.fst) }
        { s1 with waiting := updf s1.waiting dependent none }
    else s0

/-- Embeds `Server::CheckDependents`: every dependent of the resolved digest
is processed through `checkDependentsStep`. -/
def checkDependents (gid : Int) (txnDigest : String) (s : ServerState) : ServerState :=
  (s.dependents txnDigest).foldl (checkDependentsStep gid txnDigest) s

/-- Embeds `Server::CleanDependencies`: the digest is removed from the
`dependents` set of every dependency it was still waiting on, its waiting
entry is erased, and its own `dependents` entry is dropped. -/
def cleanDependencies (txnDigest : String) (s : ServerState) : ServerState :=
  let s1 :=
    match s.waiting txnDigest with
    | none => s
    | some wd =>
      let s' := wd.deps.foldl
        (fun (acc : ServerState) dependency =>
          { acc with
            dependents := updf acc.dependents dependency
              ((acc.dependents dependency).erase txnDigest) })
        s
      { s' with waiting := updf s'.waiting txnDigest none }
  { s1 with dependents := updf s1.dependents txnDigest [] }

/-- Embeds the transaction-state part of `Server::Clean`: the digest leaves
`ongoing`, and a prepared transaction is removed from `prepared` and from
the per-key `preparedReads` / `preparedWrites` of its owned keys.
`committed`, `aborted` and the store are untouched. -/
def clean (own : String → Bool) (txnDigest : String) (s : ServerState) : ServerState :=
  let s1 := { s with ongoing := updf s.ongoing txnDigest none }
  match s1.prepared txnDigest with
  | none => s1
  | some (ts, txn) =>
    let s2 := txn.read_set.foldl
      (fun acc r =>
        if own r.key then
          { acc with
            preparedReads := updf acc.preparedReads r.key ((acc.preparedReads r.key).erase txn) }
        else acc)
      s1
    let s3 := txn.write_set.foldl
      (fun acc w =>
        if own w.key then
          { acc with
            preparedWrites := updf acc.preparedWrites w.key
              ((acc.preparedWrites w.key).filter (fun e => e.fst ≠ ts)) }
        else acc)
      s2
    { s3 with prepared := updf s3.prepared txnDigest none }

/-- Strict lexicographic order on committed-read records
`(commit-ts, read-ts, proof)`, the order of the `committedRead` tuples. -/
def crLt (a b : TS × TS × Nat) : Bool :=
  TS.lt a.fst b.fst ||
    (a.fst = b.fst &&
      (TS.lt a.snd.fst b.snd.fst || (a.snd.fst = b.snd.fst && a.snd.snd < b.snd.snd)))

/-- Set insert into the per-key `committedReads`, kept in the descending
order in which `DoMVTSOOCCCheck` iterates it. -/
def insertCommittedRead (x : TS × TS × Nat) :
    List (TS × TS × Nat) → List (TS × TS × Nat)
  | [] => [x]
  | y :: rest =>
    if crLt y x then x :: y :: rest
    else if x = y then y :: rest
    else y :: insertCommittedRead x rest

/-- Version install of `store.put`, keeping the per-key version list in
ascending timestamp order; an existing version at the same timestamp is kept
(the spec forbids installing a duplicate timestamp). -/
def insertVersion (ts : TS) (v : Value) : List (TS × Value) → List (TS × Value)
  | [] => [(ts, v)]
  | (ts0, v0) :: rest =>
    if TS.lt ts ts0 then (ts, v) :: (ts0, v0) :: rest
    else if ts = ts0 then (ts0, v0) :: rest
    else (ts0, v0) :: insertVersion ts v rest

/-- Embeds `Server::Commit`: the digest enters `committed` with its proof,
every owned read is recorded in `committedReads`, every owned write is
installed into the store at the transaction timestamp, and the transaction
is cleaned up (`Clean`, `CheckDependents`, `CleanDependencies`). -/
def commitTxn (own : String → Bool) (gid : Int) (txnDigest : String) (txn : Transaction)
    (proof : Nat) (s : ServerState) : ServerState :=
  let ts := txn.timestamp
  let s1 := { s with committed := updf s.committed txnDigest true }
  let s2 := txn.read_set.foldl
    (fun acc r =>
      if own r.key then
        { acc with
          committedReads := updf acc.committedReads r.key
            (insertCommittedRead (ts, r.readtime, proof) (acc.committedReads r.key)) }
      else acc)
    s1
  let s3 := txn.write_set.foldl
    (fun acc w =>
      if own w.key then
        { acc with
          store := updf acc.store w.key
            (insertVersion ts { val := w.value, proof := proof } (acc.store w.key)) }
      else acc)
    s2
  cleanDependencies txnDigest (checkDependents gid txnDigest (clean own txnDigest s3))

/-- Embeds `Server::Abort`: the digest enters `aborted` and the transaction
is cleaned up (`Clean`, `CheckDependents`, `CleanDependencies`). -/
def abortTxn (own : String → Bool) (gid : Int) (txnDigest : String)
    (s : ServerState) : ServerState :=
  let s1 := { s with aborted := updf s.aborted txnDigest true }
  cleanDependencies txnDigest (checkDependents gid txnDigest (clean own txnDigest s1))

/-- A `Writeback` message (`proto::Writeback`): the decision, the optional
transaction body and digest, which proof kind it carries, and an opaque
handle standing for the carried signatures. -/
structure WritebackMsg where
  has_txn : Bool
  txn : Transaction
  has_txn_digest : Bool
  txn_digest : String
  decision : CommitDecision
  has_p1_sigs : Bool
  has_p2_sigs : Bool
  has_p2_view : Bool
  p2_view : Nat
  has_conflict : Bool
  proof : Nat
deriving DecidableEq, Repr

/-- Embeds the proof-validation dispatch of `Server::HandleWriteback`:
which validator runs is chosen from the decision and the attached proof
kind; `proofValid` is that validator's verdict.  `none` means the message
is dropped without reaching `WritebackCallback` (a Phase2 proof without a
view). -/
def writebackProofCheck (p : Params) (proofValid : Bool) (msg : WritebackMsg) :
    Option Bool :=
  if !p.validateProofs then some true
  else if p.signedMessages && decide (msg.decision = CommitDecision.COMMIT) && msg.has_p1_sigs then
    some proofValid
  else if p.signedMessages && decide (msg.decision = CommitDecision.ABORT) && msg.has_p1_sigs then
    some proofValid
  else if p.signedMessages && msg.has_p2_sigs then
    if !msg.has_p2_view then none else some proofValid
  else if decide (msg.decision = CommitDecision.ABORT) && msg.has_conflict then
    some proofValid
  else if p.signedMessages then some false
  else some true

/-- Embeds `Server::WritebackCallback`: an invalid proof changes nothing; a
digest already decided is a duplicate and changes nothing; otherwise a
COMMIT decision commits the transaction and an ABORT decision stores the
Writeback message for later forwarding and aborts it. -/
def writebackCallback (own : String → Bool) (gid : Int) (valid : Bool)
    (msg : WritebackMsg) (txnDigest : String) (txn : Transaction)
    (s : ServerState) : ServerState :=
  if !valid then s
  else if s.committed txnDigest || s.aborted txnDigest then s
  else if msg.decision = CommitDecision.COMMIT then
    commitTxn own gid txnDigest txn msg.proof s
  else
    abortTxn own gid txnDigest
      { s with writebackMessages := updf s.writebackMessages txnDigest true }

/-- Embeds `Server::HandleWriteback`: a message with neither body nor digest
is invalid; a digest already in `committed` or `aborted` is a duplicate and
only triggers a redundant `Clean` (on the dispatched configurations);
otherwise the transaction body is resolved from `ongoing` or the message
(whose digest must then match), the attached proof is validated, and
`WritebackCallback` applies the decision.  `digestOf` stands for
`TransactionDigest`. -/
def handleWriteback (p : Params) (own : String → Bool) (gid : Int)
    (digestOf : Transaction → String) (proofValid : Bool)
    (msg : WritebackMsg) (s : ServerState) : ServerState :=
  if !msg.has_txn && !msg.has_txn_digest then s
  else if msg.has_txn_digest then
    let d := msg.txn_digest
    if s.committed d || s.aborted d then
      if p.multiThreading || (p.mainThreadDispatching && !p.dispatchMessageReceive) then
        clean own d s
      else s
    else
      match s.ongoing d with
      | some txn =>
        match writebackProofCheck p proofValid msg with
        | none => s
        | some valid => writebackCallback own gid valid msg d txn s
      | none =>
        if msg.has_txn then
          if d ≠ digestOf msg.txn then s
          else
            match writebackProofCheck p proofValid msg with
            | none => s
            | some valid => writebackCallback own gid valid msg d msg.txn s
        else s
  else
    let d := digestOf msg.txn
    if s.committed d || s.aborted d then
      if p.multiThreading || (p.mainThreadDispatching && !p.dispatchMessageReceive) then
        clean own d s
      else s
    else
      match writebackProofCheck p proofValid msg with
      | none => s
      | some valid => writebackCallback own gid valid msg d msg.txn s

/-- Embeds the P2-metadata block of `Server::HandlePhase2CB`: a digest that
already has a p2 decision keeps it (same decision view); otherwise the
message's decision is installed with the current decision view; the original
client is subscribed for asynchronous delivery either way. -/
def handlePhase2CBMeta (dec : CommitDecision) (msgId addr : Nat) (m : P2Meta) : P2Meta :=
  let m1 := if m.hasP2 then m else { m with p2Decision := dec, hasP2 := true }
  { m1 with has_original := true, original_msg_id := msgId, original_address := addr }

/-- Embeds the P2-metadata block of `Server::ProcessP2FBCallback`: a digest
that already has a p2 decision keeps it; otherwise the fallback message's
decision is installed at decision view 0. -/
def processP2FBCallbackMeta (dec : CommitDecision) (m : P2Meta) : P2Meta :=
  if m.hasP2 then m
  else { m with p2Decision := dec, hasP2 := true, decision_view := 0 }

/-- Embeds the P2-metadata block of `Server::AdoptDecision`: a view below the
current view is outdated; otherwise the current view catches up to the
decision's view, and a decision from a strictly larger view than the stored
decision view replaces the stored decision. -/
def adoptDecisionMeta (view : Nat) (dec : CommitDecision) (m : P2Meta) : P2Meta :=
  if m.current_view > view then m
  else
    let m1 := if m.current_view < view then { m with current_view := view } else m
    if m1.decision_view < view then
      { m1 with decision_view := view, p2Decision := dec, hasP2 := true }
    else m1

/-- One operation on a digest's P2 metadata: a Phase2 accept
(`HandlePhase2CB`, applied only when the attached Phase1 quorum validated),
a fallback Phase2 (`ProcessP2FBCallback`, applied only when its proof
validated and the digest was not already decided and forwarded), or a
DecisionFB adoption (`AdoptDecision`, reached from `FBDecisionCallback` or
by the fallback leader, only when the ElectFB quorum validated and the
digest was not already decided). -/
inductive P2Op where
  | phase2 (dec : CommitDecision) (msgId addr : Nat) (valid : Bool)
  | p2fb (dec : CommitDecision) (valid : Bool) (decided : Bool)
  | adopt (view : Nat) (dec : CommitDecision) (valid : Bool) (decided : Bool)
deriving DecidableEq, Repr

/-- Applies one P2 operation to a digest's metadata (the guards mirror the
early returns of the three handlers before they touch the metadata). -/
def p2Step (m : P2Meta) : P2Op → P2Meta
  | P2Op.phase2 dec msgId addr valid => if valid then handlePhase2CBMeta dec msgId addr m else m
  | P2Op.p2fb dec valid decided => if valid && !decided then processP2FBCallbackMeta dec m else m
  | P2Op.adopt view dec valid decided => if valid && !decided then adoptDecisionMeta view dec m else m

/-- Runs a sequence of P2 operations from a given metadata state. -/
def p2Run (m : P2Meta) (ops : List P2Op) : P2Meta := ops.foldl p2Step m

/-- Per-digest ElectFB bookkeeping (`ElectFBorganizer`): per (view,
decision) the set of replica ids already seen (`.first`), the accumulated
signatures and their count (`.second`), and per view whether a decision was
already emitted (`view_complete`).  A signature is the pair (replica id,
signature handle). -/
structure ElectFBorganizer where
  voters : Nat → CommitDecision → List Nat
  sigs : Nat → CommitDecision → List (Nat × Nat)
  count : Nat → CommitDecision → Nat
  viewComplete : Nat → Bool

/-- Fresh `ElectFBorganizer`, as created by `ElectQuorums.insert`. -/
def electInit : ElectFBorganizer :=
  { voters := fun _ _ => [], sigs := fun _ _ => [], count := fun _ _ => 0,
    viewComplete := fun _ => false }

/-- Pointwise update of a (view, decision)-indexed map. -/
def upd2 {α : Type} (f : Nat → CommitDecision → α) (v : Nat) (d : CommitDecision) (x : α) :
    Nat → CommitDecision → α :=
  fun v' d' => if v' = v ∧ d' = d then x else f v' d'

/-- An ElectFB vote as processed by the leader, after parsing: the proposed
view, the decision, the voting replica, its signature, and the verifier's
verdict on that signature. -/
structure ElectVote where
  view : Nat
  dec : CommitDecision
  pid : Nat
  sig : Nat
  valid : Bool
deriving DecidableEq, Repr

/-- A DecisionFB message as emitted by the fallback leader. -/
structure DecisionFBMsg where
  view : Nat
  dec : CommitDecision
  sigs : List (Nat × Nat)
deriving DecidableEq, Repr

/-- Embeds `Server::PreProcessElectFB`: insert the replica id into the
(view, decision) quorum's id set; a duplicate is rejected. -/
def preProcessElectFB (org : ElectFBorganizer) (view : Nat) (dec : CommitDecision)
    (pid : Nat) : ElectFBorganizer × Bool :=
  if (org.voters view dec).contains pid then (org, false)
  else ({ org with voters := upd2 org.voters view dec (org.voters view dec ++ [pid]) }, true)

/-- Embeds `Server::ProcessElectFB`: a view in which this leader already
emitted a decision accepts no further signatures; otherwise the signature is
added and counted, and when the count reaches `2f+1` the view is closed and
a DecisionFB carrying the accumulated signatures is emitted (the stored
signature list is moved out). -/
def processElectFB (f : Nat) (org : ElectFBorganizer) (view : Nat) (dec : CommitDecision)
    (sig pid : Nat) : ElectFBorganizer × Option DecisionFBMsg :=
  if org.viewComplete view then (org, none)
  else
    let newSigs := org.sigs view dec ++ [(pid, sig)]
    let newCount := org.count view dec + 1
    let org1 := { org with
      sigs := upd2 org.sigs view dec newSigs,
      count := upd2 org.count view dec newCount }
    if newCount = 2 * f + 1 then
      ({ org1 with
          viewComplete := fun v => if v = view then true else org1.viewComplete v,
          sigs := upd2 org1.sigs view dec [] },
        some { view := view, dec := dec, sigs := newSigs })
    else (org1, none)

/-- Embeds the leader-side processing of one ElectFB vote
(`Server::HandleElectFB` followed by `ElectFBcallback`): the vote is
deduplicated through `PreProcessElectFB` before its signature is verified,
and only a verified vote reaches `ProcessElectFB`. -/
def electStep (f : Nat) (org : ElectFBorganizer) (e : ElectVote) :
    ElectFBorganizer × Option DecisionFBMsg :=
  let pre := preProcessElectFB org e.view e.dec e.pid
  if !pre.snd then (pre.fst, none)
  else if !e.valid then (pre.fst, none)
  else processElectFB f pre.fst e.view e.dec e.sig e.pid

/-- Runs a sequence of ElectFB votes through the leader, collecting every
emitted DecisionFB. -/
def electRun (f : Nat) (org : ElectFBorganizer) :
    List ElectVote → ElectFBorganizer × List DecisionFBMsg
  | [] => (org, [])
  | e :: rest =>
    let st := electStep f org e
    let tail := electRun f st.fst rest
    (tail.fst, st.snd.toList ++ tail.snd)

/-- A replica state with every map empty, the base of the concrete states
used to witness the theorems below. -/
def emptyState : ServerState :=
  { committed := fun _ => false, aborted := fun _ => false, ongoing := fun _ => none,
    prepared := fun _ => none, preparedReads := fun _ => [], preparedWrites := fun _ => [],
    committedReads := fun _ => [], store := fun _ => [], rts := fun _ => none,
    p1Meta := fun _ => none, p2Meta := fun _ => none, dependents := fun _ => [],
    waiting := fun _ => none, writebackMessages := fun _ => false }

/-- Baseline configuration for the concrete witnesses: proofs and signatures
on, dependency signatures not independently verified, dependency tracking
enabled without a depth bound, sequential dispatch. -/
def pBase : Params :=
  { validateProofs := true, signedMessages := true, verifyDeps := false,
    maxDepDepth := -1, no_fallback := false, multiThreading := false,
    mainThreadDispatching := false, dispatchMessageReceive := false }

/-- Relation between an old and a new RTS entry: an existing value may only
grow and never disappears. -/
def rtsMono (a b : Option Nat) : Prop :=
  ∀ v, a = some v → ∃ w, b = some w ∧ v ≤ w

/-- Relation between two replica states that agree on everything except the
dependency-tracker maps (`dependents` and `waiting`), the only maps
`ManageDependencies` writes. -/
def sameExceptDeps (s s' : ServerState) : Prop :=
  s'.committed = s.committed ∧ s'.aborted = s.aborted ∧ s'.ongoing = s.ongoing ∧
  s'.prepared = s.prepared ∧ s'.preparedReads = s.preparedReads ∧
  s'.preparedWrites = s.preparedWrites ∧ s'.committedReads = s.committedReads ∧
  s'.store = s.store ∧ s'.rts = s.rts ∧ s'.p1Meta = s.p1Meta ∧ s'.p2Meta = s.p2Meta ∧
  s'.writebackMessages = s.writebackMessages

/-- A dependency that forces a re-evaluated waiting transaction to ABSTAIN:
it belongs to this group and is either aborted or committed with a prepared
timestamp beyond the transaction's own timestamp. -/
def blockingDep (gid : Int) (s : ServerState) (txn : Transaction) (dep : Dep) : Prop :=
  dep.involved_group = gid ∧
    (s.aborted dep.write.prepared_txn_digest = true ∨
      (s.committed dep.write.prepared_txn_digest = true ∧
        TS.lt txn.timestamp dep.write.prepared_timestamp = true))

/-- Waiting transaction for the C4 witness: one dependency on digest b in
group 0. -/
def c4Txn : Transaction :=
  { client_id := 1, client_seq_num := 1, timestamp := { t := 10, id := 1 },
    read_set := [], write_set := [],
    deps := [{ write := { prepared_txn_digest := "b",
                          prepared_timestamp := { t := 5, id := 0 } },
               involved_group := 0 }] }

/-- State for the C4 witness: transaction e is ongoing and its only
dependency b has aborted. -/
def c4State : ServerState :=
  { emptyState with
    ongoing := updf emptyState.ongoing "e" (some c4Txn),
    aborted := updf emptyState.aborted "b" true }

/-- A transaction with no reads, writes or dependencies, used as a dummy
message body by the concrete witnesses. -/
def txnEmpty : Transaction :=
  { client_id := 0, client_seq_num := 0, timestamp := { t := 0, id := 0 },
    read_set := [], write_set := [], deps := [] }

/-- State for the C6 witness: digest d is already committed. -/
def c6State : ServerState :=
  { emptyState with committed := updf emptyState.committed "d" true }

/-- Writeback message for the C6 witness, replaying a commit of digest d. -/
def c6Msg : WritebackMsg :=
  { has_txn := false, txn := txnEmpty, has_txn_digest := true, txn_digest := "d",
    decision := CommitDecision.COMMIT, has_p1_sigs := true, has_p2_sigs := false,
    has_p2_view := false, p2_view := 0, has_conflict := false, proof := 1 }

/-- Invariant of a digest's P2 metadata: before any p2 decision is stored
the decision view is still zero. -/
def p2Inv (m : P2Meta) : Prop := m.hasP2 = false → m.decision_view = 0

/-- State for the C5 witness, terminal case: digest d has a buffered COMMIT
result. -/
def c5TermState : ServerState :=
  { emptyState with
    p1Meta := updf emptyState.p1Meta "d"
      (some { hasP1 := true, result := CCResult.Commit, conflict := none }) }

/-- Transaction for the C5 witness, wait case: one dependency on digest b in
group 0. -/
def c5WaitTxn : Transaction :=
  { client_id := 2, client_seq_num := 1, timestamp := { t := 7, id := 2 },
    read_set := [], write_set := [],
    deps := [{ write := { prepared_txn_digest := "b",
                          prepared_timestamp := { t := 3, id := 0 } },
               involved_group := 0 }] }

/-- State for the C5 witness, wait case: digest w has a buffered WAIT
result and its dependency b is still undecided. -/
def c5WaitState : ServerState :=
  { emptyState with
    p1Meta := updf emptyState.p1Meta "w"
      (some { hasP1 := true, result := CCResult.Wait, conflict := none }) }

/-- State for the C7 counterexample: digest d is already committed, but the
replica holds no P1 metadata for it (it was committed through a Writeback
that carried the full transaction, without a local Phase1). -/
def c7State : ServerState :=
  { emptyState with committed := updf emptyState.committed "d" true }

/-- Transaction for the C7 counterexample. -/
def c7Txn : Transaction :=
  { client_id := 3, client_seq_num := 1, timestamp := { t := 1, id := 3 },
    read_set := [], write_set := [], deps := [] }

/-- Transaction for the C1 witness: timestamp 10, one read of key k at
version 3, no writes, no dependencies. -/
def c1TxnA : Transaction :=
  { client_id := 4, client_seq_num := 1, timestamp := { t := 10, id := 0 },
    read_set := [{ key := "k", readtime := { t := 3, id := 0 } }],
    write_set := [], deps := [] }

/-- State for the C1 witness, conflict case: a prepared write on k at
timestamp 5, strictly between the read version 3 and the transaction
timestamp 10. -/
def c1StateA : ServerState :=
  { emptyState with
    preparedWrites := updf emptyState.preparedWrites "k"
      [({ t := 5, id := 0 }, txnEmpty)] }

/-- State for the C1 witness, boundary case: the prepared write on k sits at
exactly the read version 3, which must trigger no conflict. -/
def c1StateB : ServerState :=
  { emptyState with
    preparedWrites := updf emptyState.preparedWrites "k"
      [({ t := 3, id := 0 }, txnEmpty)] }

/-- A signature pair (replica id, signature) stems from a verified ElectFB
vote in `events` for exactly the pair (view, decision). -/
def voteOrigin (events : List ElectVote) (v : Nat) (d : CommitDecision)
    (pr : Nat × Nat) : Prop :=
  ∃ e ∈ events, e.valid = true ∧ e.view = v ∧ e.dec = d ∧ e.pid = pr.fst ∧
    e.sig = pr.snd

/-- Invariant of the per-digest ElectFB bookkeeping, relative to a predicate
P on the recorded signature pairs: while a view is not complete its
signature list matches its counter, the recorded replica ids are distinct
and were all deduplicated through the voter set, and every recorded pair
satisfies P. -/
def electInv (org : ElectFBorganizer)
    (P : Nat → CommitDecision → Nat × Nat → Prop) : Prop :=
  ∀ v d, (org.viewComplete v = false → (org.sigs v d).length = org.count v d)
    ∧ ((org.sigs v d).map Prod.fst).Nodup
    ∧ (∀ pr ∈ org.sigs v d, P v d pr)
    ∧ (∀ pr ∈ org.sigs v d, pr.fst ∈ org.voters v d)

/-! Theorems.  The helper lemmas come first; the per-claim theorems follow,
each carrying the claim id in its doc comment. -/

theorem TS.lt_iff (a b : TS) :
    TS.lt a b = true ↔ a.t < b.t ∨ (a.t = b.t ∧ a.id < b.id) := by
  simp [TS.lt]

theorem TS.le_iff (a b : TS) :
    TS.le a b = true ↔ a.t < b.t ∨ (a.t = b.t ∧ a.id ≤ b.id) := by
  simp [TS.le]

theorem TS.not_lt_iff_le (a b : TS) : TS.lt a b = false ↔ TS.le b a = true := by
  simp [TS.lt, TS.le]
  omega

theorem TS.lt_irrefl (a : TS) : TS.lt a a = false := by
  simp [TS.lt]

theorem foldl_proj {α β : Type} (g : ServerState → β) (f : ServerState → α → ServerState)
    (h : ∀ s a, g (f s a) = g s) :
    ∀ (l : List α) (s : ServerState), g (l.foldl f s) = g s := by
  intro l
  induction l with
  | nil => intro s; rfl
  | cons a t ih => intro s; rw [List.foldl_cons, ih, h]

theorem sameExceptDeps_refl (s : ServerState) : sameExceptDeps s s :=
  ⟨rfl, rfl, rfl, rfl, rfl, rfl, rfl, rfl, rfl, rfl, rfl, rfl⟩

theorem sameExceptDeps_trans {a b c : ServerState}
    (h1 : sameExceptDeps a b) (h2 : sameExceptDeps b c) : sameExceptDeps a c := by
  obtain ⟨e1, e2, e3, e4, e5, e6, e7, e8, e9, e10, e11, e12⟩ := h1
  obtain ⟨f1, f2, f3, f4, f5, f6, f7, f8, f9, f10, f11, f12⟩ := h2
  exact ⟨f1.trans e1, f2.trans e2, f3.trans e3, f4.trans e4, f5.trans e5, f6.trans e6,
    f7.trans e7, f8.trans e8, f9.trans e9, f10.trans e10, f11.trans e11, f12.trans e12⟩

theorem manageDepStep_sed (gid : Int) (reqId remote : Nat) (fb rg : Bool)
    (dig : String) (acc : ServerState × Bool) (dep : Dep) :
    sameExceptDeps acc.fst ((manageDepStep gid reqId remote fb rg dig acc dep).fst) := by
  unfold manageDepStep
  dsimp only
  split
  · split
    · exact sameExceptDeps_refl _
    · exact ⟨rfl, rfl, rfl, rfl, rfl, rfl, rfl, rfl, rfl, rfl, rfl, rfl⟩
  · exact sameExceptDeps_refl _

theorem manageDepFold_sed (gid : Int) (reqId remote : Nat) (fb rg : Bool) (dig : String) :
    ∀ (l : List Dep) (acc : ServerState × Bool),
      sameExceptDeps acc.fst ((l.foldl (manageDepStep gid reqId remote fb rg dig) acc).fst) := by
  intro l
  induction l with
  | nil => intro acc; exact sameExceptDeps_refl _
  | cons d t ih =>
    intro acc
    rw [List.foldl_cons]
    exact sameExceptDeps_trans (manageDepStep_sed gid reqId remote fb rg dig acc d) (ih _)

theorem manageDependencies_sed (p : Params) (gid : Int) (reqId remote : Nat)
    (fb rg : Bool) (dig : String) (txn : Transaction) (s : ServerState) :
    sameExceptDeps s ((manageDependencies p gid reqId remote fb rg dig txn s).fst) := by
  unfold manageDependencies
  split
  · exact manageDepFold_sed gid reqId remote fb rg dig txn.deps (s, true)
  · exact sameExceptDeps_refl _

theorem prepareTxn_rts (own : String → Bool) (d : String) (txn : Transaction)
    (s : ServerState) : (prepareTxn own d txn s).rts = s.rts := by
  unfold prepareTxn
  cases h : s.ongoing d with
  | none => rfl
  | some t =>
    refine ((foldl_proj (fun st => st.rts) _ ?_ txn.write_set _).trans
      ((foldl_proj (fun st => st.rts) _ ?_ txn.read_set _).trans rfl))
    · intro s1 w
      dsimp only []
      split <;> rfl
    · intro s1 r
      dsimp only []
      split
      · split <;> rfl
      · rfl

theorem occFinish_rts (p : Params) (gid : Int) (reqId remote : Nat) (fb rg : Bool)
    (dig : String) (txn : Transaction) (s1 : ServerState) :
    ((occFinish p gid reqId remote fb rg dig txn s1).state).rts = s1.rts := by
  unfold occFinish
  dsimp only
  split
  · exact (manageDependencies_sed p gid reqId remote fb rg dig txn s1).2.2.2.2.2.2.2.2.1
  · exact (manageDependencies_sed p gid reqId remote fb rg dig txn s1).2.2.2.2.2.2.2.2.1

theorem doMVTSOOCCCheck_rts (p : Params) (gid : Int) (own : String → Bool)
    (localTime timeDelta reqId remote : Nat) (fb rg : Bool) (dig : String)
    (txn : Transaction) (s : ServerState) :
    ((doMVTSOOCCCheck p gid own localTime timeDelta reqId remote fb rg dig txn s).state).rts
      = s.rts := by
  unfold doMVTSOOCCCheck
  dsimp only
  repeat' split
  all_goals first
    | rfl
    | exact occFinish_rts p gid reqId remote fb rg dig txn s
    | exact (occFinish_rts p gid reqId remote fb rg dig txn _).trans
        (prepareTxn_rts own dig txn s)

theorem handleAbort_id (p : Params) (s : ServerState) (m : AbortMsg) :
    handleAbort p s m = s := by
  unfold handleAbort
  simp only [ite_self]

theorem handleRead_served (p : Params) (localTime timeDelta fuel : Nat) (s : ServerState)
    (key : String) (ts : TS) :
    ((handleRead p localTime timeDelta fuel s key ts).snd).isSome
      = !(checkHighWatermark ts localTime timeDelta) := by
  unfold handleRead
  cases h : checkHighWatermark ts localTime timeDelta <;> simp [h]

/-- C8: a Read at timestamp ts is served exactly when ts is at most the high
watermark (the local clock plus delta, as a timestamp with id 0): a read
timestamp exactly equal to the watermark is accepted and one tick beyond it
is rejected. -/
theorem c8_read_watermark_boundary (p : Params) (localTime timeDelta fuel : Nat)
    (s : ServerState) (key : String) (ts : TS) :
    (((handleRead p localTime timeDelta fuel s key ts).snd).isSome = true
      ↔ TS.le ts { t := localTime + timeDelta, id := 0 } = true)
    ∧ ((handleRead p localTime timeDelta fuel s key
        { t := localTime + timeDelta, id := 0 }).snd).isSome = true
    ∧ ((handleRead p localTime timeDelta fuel s key
        { t := localTime + timeDelta, id := 1 }).snd).isSome = false := by
  refine ⟨?_, ?_, ?_⟩
  · rw [handleRead_served]
    unfold checkHighWatermark
    cases h : TS.lt { t := localTime + timeDelta, id := 0 } ts with
    | false => simp [(TS.not_lt_iff_le _ _).mp h]
    | true =>
      simp only [Bool.not_true]
      constructor
      · intro hc; exact absurd hc (by simp)
      · intro hle
        have hf := (TS.not_lt_iff_le _ _).mpr hle
        rw [h] at hf
        exact absurd hf (by simp)
  · rw [handleRead_served]
    simp [checkHighWatermark, TS.lt]
  · rw [handleRead_served]
    simp [checkHighWatermark, TS.lt]

/-- C9 counterexample: an authenticated client Abort naming key k1 (whose
RTS high-water the aborting client's read at time 20 set) leaves the RTS
entry for k1 in place, against the claim that it is invalidated. -/
theorem c9_rts_not_invalidated :
    (handleAbort pBase
      { emptyState with rts := updf emptyState.rts "k1" (some 20) }
      { signed := true, sigValid := true, process_id := 7,
        internal := { ts := { t := 20, id := 7 }, read_set := ["k1"] } }).rts "k1"
      = some 20 := by
  rw [handleAbort_id]
  simp [updf, emptyState]

/-- C9 (amended): an authenticated client Abort message is verified but
performs no RTS invalidation: the single replacing RTS design leaves the
whole replica state unchanged on every path of HandleAbort. -/
theorem c9_abort_leaves_state (p : Params) (s : ServerState) (m : AbortMsg) :
    handleAbort p s m = s :=
  handleAbort_id p s m

/-- C10: the per-key RTS high-water value is monotonically non-decreasing:
HandleRead only replaces it with a strictly larger read timestamp (inserting
it when absent), the MVTSO concurrency-control check leaves it untouched,
and a client Abort leaves it untouched. -/
theorem c10_rts_monotone :
    (∀ (p : Params) (localTime timeDelta fuel : Nat) (s : ServerState) (key : String)
        (ts : TS) (k : String),
      rtsMono (s.rts k) (((handleRead p localTime timeDelta fuel s key ts).fst).rts k))
    ∧ (∀ (p : Params) (gid : Int) (own : String → Bool)
        (localTime timeDelta reqId remote : Nat) (fb rg : Bool) (dig : String)
        (txn : Transaction) (s : ServerState) (k : String),
      ((doMVTSOOCCCheck p gid own localTime timeDelta reqId remote fb rg dig txn s).state).rts k
        = s.rts k)
    ∧ (∀ (p : Params) (s : ServerState) (m : AbortMsg) (k : String),
      (handleAbort p s m).rts k = s.rts k) := by
  refine ⟨?_, ?_, ?_⟩
  · intro p localTime timeDelta fuel s key ts k
    intro v hv
    unfold handleRead
    cases hw : checkHighWatermark ts localTime timeDelta with
    | true => exact ⟨v, by simp [hw, hv], le_refl v⟩
    | false =>
      cases hk : s.rts key with
      | none =>
        by_cases hkk : k = key
        · subst hkk; rw [hv] at hk; exact Option.noConfusion hk
        · exact ⟨v, by simp [hw, hk, updf, hkk, hv], le_refl v⟩
      | some w =>
        by_cases hts : ts.t > w
        · by_cases hkk : k = key
          · subst hkk
            rw [hv] at hk
            injection hk with hvw
            subst hvw
            exact ⟨ts.t, by simp [hw, hv, hts, updf], le_of_lt hts⟩
          · exact ⟨v, by simp [hw, hk, hts, updf, hkk, hv], le_refl v⟩
        · exact ⟨v, by simp [hw, hk, hts, hv], le_refl v⟩
  · intro p gid own localTime timeDelta reqId remote fb rg dig txn s k
    rw [doMVTSOOCCCheck_rts]
  · intro p s m k
    rw [handleAbort_id]

theorem checkDeps_go_spec (gid : Int) (s : ServerState) (txn : Transaction)
    (hdisj : ∀ d, ¬(s.committed d = true ∧ s.aborted d = true)) :
    ∀ l : List Dep,
      (∀ dep ∈ l, dep.involved_group = gid →
        s.committed dep.write.prepared_txn_digest = true ∨
          s.aborted dep.write.prepared_txn_digest = true) →
      checkDependenciesTxn.go gid s txn l ≠ CCResult.Abort
        ∧ (checkDependenciesTxn.go gid s txn l = CCResult.Abstain ↔
            ∃ dep ∈ l, blockingDep gid s txn dep) := by
  intro l
  induction l with
  | nil =>
    intro _
    refine ⟨by simp [checkDependenciesTxn.go], ?_⟩
    simp [checkDependenciesTxn.go]
  | cons dep t ih =>
    intro hres
    have ht := ih (fun d hd hg => hres d (List.mem_cons_of_mem _ hd) hg)
    by_cases hg : dep.involved_group = gid
    · by_cases hc : s.committed dep.write.prepared_txn_digest = true
      · by_cases hlt : TS.lt txn.timestamp dep.write.prepared_timestamp = true
        · refine ⟨by simp [checkDependenciesTxn.go, hg, hc, hlt], ?_⟩
          constructor
          · intro _
            exact ⟨dep, List.mem_cons_self dep t, hg, Or.inr ⟨hc, hlt⟩⟩
          · intro _
            simp [checkDependenciesTxn.go, hg, hc, hlt]
        · have hstep : checkDependenciesTxn.go gid s txn (dep :: t)
              = checkDependenciesTxn.go gid s txn t := by
            simp [checkDependenciesTxn.go, hg, hc, hlt]
          have hna : ¬(s.aborted dep.write.prepared_txn_digest = true) :=
            fun ha => hdisj dep.write.prepared_txn_digest ⟨hc, ha⟩
          rw [hstep]
          refine ⟨ht.1, ?_⟩
          rw [ht.2]
          constructor
          · rintro ⟨d, hd, hbd⟩
            exact ⟨d, List.mem_cons_of_mem _ hd, hbd⟩
          · rintro ⟨d, hd, hbd⟩
            rcases List.mem_cons.mp hd with rfl | hdt
            · rcases hbd.2 with ha | ⟨_, hl⟩
              · exact absurd ha hna
              · exact absurd hl hlt
            · exact ⟨d, hdt, hbd⟩
      · have ha : s.aborted dep.write.prepared_txn_digest = true :=
          (hres dep (List.mem_cons_self dep t) hg).resolve_left hc
        refine ⟨by simp [checkDependenciesTxn.go, hg, hc], ?_⟩
        constructor
        · intro _
          exact ⟨dep, List.mem_cons_self dep t, hg, Or.inl ha⟩
        · intro _
          simp [checkDependenciesTxn.go, hg, hc]
    · have hstep : checkDependenciesTxn.go gid s txn (dep :: t)
          = checkDependenciesTxn.go gid s txn t := by
        simp [checkDependenciesTxn.go, hg]
      rw [hstep]
      refine ⟨ht.1, ?_⟩
      rw [ht.2]
      constructor
      · rintro ⟨d, hd, hbd⟩
        exact ⟨d, List.mem_cons_of_mem _ hd, hbd⟩
      · rintro ⟨d, hd, hbd⟩
        rcases List.mem_cons.mp hd with rfl | hdt
        · exact absurd hbd.1 hg
        · exact ⟨d, hdt, hbd⟩

/-- C4: once the last unresolved dependency of a waiting transaction e is
resolved, the re-evaluation of e through CheckDependencies returns ABSTAIN
exactly when some dependency of e in this group is aborted or is committed
with a prepared timestamp greater than e's own timestamp, returns COMMIT
otherwise, and never returns ABORT. -/
theorem c4_dependency_wakeup (gid : Int) (s : ServerState) (e : String) (txn : Transaction)
    (hong : s.ongoing e = some txn)
    (hdisj : ∀ d, ¬(s.committed d = true ∧ s.aborted d = true))
    (hres : ∀ dep ∈ txn.deps, dep.involved_group = gid →
      s.committed dep.write.prepared_txn_digest = true ∨
        s.aborted dep.write.prepared_txn_digest = true) :
    checkDependenciesDig gid s e ≠ some CCResult.Abort
    ∧ (checkDependenciesDig gid s e = some CCResult.Abstain ↔
        ∃ dep ∈ txn.deps, blockingDep gid s txn dep)
    ∧ ((¬∃ dep ∈ txn.deps, blockingDep gid s txn dep) →
        checkDependenciesDig gid s e = some CCResult.Commit) := by
  have hspec := checkDeps_go_spec gid s txn hdisj txn.deps hres
  have hdig : checkDependenciesDig gid s e = some (checkDependenciesTxn.go gid s txn txn.deps) := by
    simp [checkDependenciesDig, hong, checkDependenciesTxn]
  refine ⟨?_, ?_, ?_⟩
  · rw [hdig]
    intro hcon
    exact hspec.1 (by injection hcon)
  · rw [hdig]
    constructor
    · intro hcon
      exact hspec.2.mp (by injection hcon)
    · intro hex
      rw [hspec.2.mpr hex]
  · intro hnone
    rw [hdig]
    cases hgo : checkDependenciesTxn.go gid s txn txn.deps with
    | Commit => rfl
    | Abstain => exact absurd (hspec.2.mp hgo) hnone
    | Abort => exact absurd hgo hspec.1
    | Wait =>
      exfalso
      have : ∀ l, checkDependenciesTxn.go gid s txn l ≠ CCResult.Wait := by
        intro l
        induction l with
        | nil => simp [checkDependenciesTxn.go]
        | cons d t iht =>
          simp only [checkDependenciesTxn.go]
          split
          · split
            · split
              · simp
              · exact iht
            · simp
          · exact iht
      exact this txn.deps hgo

/-- C4 witness: in the concrete state where e's single group-0 dependency b
has aborted, the re-evaluation of e resolves to ABSTAIN. -/
theorem c4_dependency_wakeup_witness :
    checkDependenciesDig 0 c4State "e" = some CCResult.Abstain := by
  have h := c4_dependency_wakeup 0 c4State "e" c4Txn
    (by simp [c4State, emptyState, updf])
    (by intro d h; simp [c4State, emptyState] at h)
    (by
      intro dep hdep hg
      simp [c4Txn] at hdep
      subst hdep
      right
      simp [c4State, emptyState, updf])
  refine h.2.1.mpr ?_
  refine ⟨{ write := { prepared_txn_digest := "b",
                       prepared_timestamp := { t := 5, id := 0 } },
            involved_group := 0 }, ?_, ?_, ?_⟩
  · simp [c4Txn]
  · rfl
  · left
    simp [c4State, emptyState, updf]

theorem clean_cas_tuple (own : String → Bool) (d : String) (s : ServerState) :
    ((clean own d s).committed, (clean own d s).aborted, (clean own d s).store)
      = (s.committed, s.aborted, s.store) := by
  unfold clean
  dsimp only
  cases h : s.prepared d with
  | none => rfl
  | some e =>
    obtain ⟨ts, txn⟩ := e
    simp only [h]
    refine ((foldl_proj (fun st => (st.committed, st.aborted, st.store)) _ ?_
        txn.write_set _).trans
      ((foldl_proj (fun st => (st.committed, st.aborted, st.store)) _ ?_
        txn.read_set _).trans rfl))
    · intro s1 w
      dsimp only
      split <;> rfl
    · intro s1 r
      dsimp only
      split <;> rfl

theorem clean_cas (own : String → Bool) (d : String) (s : ServerState) :
    (clean own d s).committed = s.committed ∧ (clean own d s).aborted = s.aborted
      ∧ (clean own d s).store = s.store := by
  have h := clean_cas_tuple own d s
  exact ⟨congrArg Prod.fst h, congrArg (fun x => x.snd.fst) h,
    congrArg (fun x => x.snd.snd) h⟩

/-- C6: a Writeback for a digest already in committed or aborted is detected
as a duplicate: it leaves the committed set, the aborted set and the store
unchanged, and performs no second Commit or Abort (at most a redundant
Clean of the transient maps). -/
theorem c6_writeback_duplicate (p : Params) (own : String → Bool) (gid : Int)
    (digestOf : Transaction → String) (proofValid : Bool) (msg : WritebackMsg)
    (s : ServerState) (d : String)
    (hd : (msg.has_txn_digest = true ∧ msg.txn_digest = d)
        ∨ (msg.has_txn_digest = false ∧ msg.has_txn = true ∧ digestOf msg.txn = d))
    (hdec : s.committed d = true ∨ s.aborted d = true) :
    (handleWriteback p own gid digestOf proofValid msg s).committed = s.committed
    ∧ (handleWriteback p own gid digestOf proofValid msg s).aborted = s.aborted
    ∧ (handleWriteback p own gid digestOf proofValid msg s).store = s.store := by
  have hcond : (s.committed d || s.aborted d) = true := by
    rcases hdec with hc | ha
    · simp [hc]
    · simp [ha]
  rcases hd with ⟨h1, h2⟩ | ⟨h1, h2, h3⟩
  · subst h2
    unfold handleWriteback
    simp only [h1, hcond, Bool.not_true, Bool.and_false, Bool.false_eq_true, if_false,
      if_true]
    split
    · exact clean_cas own msg.txn_digest s
    · exact ⟨rfl, rfl, rfl⟩
  · unfold handleWriteback
    simp only [h1, h2, Bool.not_true, Bool.false_and, Bool.false_eq_true, if_false]
    rw [h3]
    simp only [hcond, if_true]
    split
    · exact clean_cas own d s
    · exact ⟨rfl, rfl, rfl⟩

/-- C6 witness: replaying a commit Writeback for the already committed
digest d leaves d committed and does not disturb the committed set. -/
theorem c6_writeback_duplicate_witness :
    (handleWriteback pBase (fun _ => true) 0 (fun _ => "x") true c6Msg c6State).committed "d"
      = true := by
  have h := c6_writeback_duplicate pBase (fun _ => true) 0 (fun _ => "x") true c6Msg
    c6State "d" (Or.inl ⟨rfl, rfl⟩)
    (Or.inl (by simp [c6State, emptyState, updf]))
  rw [congrFun h.1 "d"]
  simp [c6State, emptyState, updf]

theorem p2Step_spec (m : P2Meta) (op : P2Op) (hinv : p2Inv m) :
    m.decision_view ≤ (p2Step m op).decision_view
    ∧ (m.hasP2 = true → (p2Step m op).p2Decision ≠ m.p2Decision →
        m.decision_view < (p2Step m op).decision_view)
    ∧ p2Inv (p2Step m op) := by
  cases op with
  | phase2 dec msgId addr valid =>
    cases valid with
    | false => exact ⟨le_refl _, fun _ h => absurd rfl h, hinv⟩
    | true =>
      cases h2 : m.hasP2 with
      | true =>
        refine ⟨?_, ?_, ?_⟩
        · simp [p2Step, handlePhase2CBMeta, h2]
        · intro _ h
          exact absurd (show (p2Step m (P2Op.phase2 dec msgId addr true)).p2Decision
            = m.p2Decision by simp [p2Step, handlePhase2CBMeta, h2]) h
        · intro h
          simp [p2Step, handlePhase2CBMeta, h2] at h
      | false =>
        refine ⟨?_, ?_, ?_⟩
        · simp [p2Step, handlePhase2CBMeta, h2]
        · intro hh
          exact Bool.noConfusion hh
        · intro h
          simp [p2Step, handlePhase2CBMeta, h2] at h
  | p2fb dec valid decided =>
    cases hvd : (valid && !decided) with
    | false =>
      simp only [p2Step, hvd, Bool.false_eq_true, if_false]
      exact ⟨le_refl _, fun _ h => absurd rfl h, hinv⟩
    | true =>
      simp only [p2Step, hvd, if_true]
      cases h2 : m.hasP2 with
      | true =>
        simp only [processP2FBCallbackMeta, h2, if_true]
        exact ⟨le_refl _, fun _ h => absurd rfl h, hinv⟩
      | false =>
        simp only [processP2FBCallbackMeta, h2, Bool.false_eq_true, if_false]
        refine ⟨?_, ?_, ?_⟩
        · rw [hinv h2]
        · intro hh
          exact hh.elim
        · intro h
          simp at h
  | adopt view dec valid decided =>
    cases hvd : (valid && !decided) with
    | false =>
      simp only [p2Step, hvd, Bool.false_eq_true, if_false]
      exact ⟨le_refl _, fun _ h => absurd rfl h, hinv⟩
    | true =>
      simp only [p2Step, hvd, if_true]
      unfold adoptDecisionMeta
      by_cases hcv : m.current_view > view
      · simp only [if_pos hcv]
        exact ⟨le_refl _, fun _ h => absurd rfl h, hinv⟩
      · simp only [if_neg hcv]
        by_cases hc2 : m.current_view < view
        · simp only [if_pos hc2]
          by_cases hdv : ({ m with current_view := view } : P2Meta).decision_view < view
          · simp only [if_pos hdv]
            exact ⟨le_of_lt hdv, fun _ _ => hdv, fun h => by simp at h⟩
          · simp only [if_neg hdv]
            exact ⟨le_refl _, fun _ h => absurd rfl h, hinv⟩
        · simp only [if_neg hc2]
          by_cases hdv : m.decision_view < view
          · simp only [if_pos hdv]
            exact ⟨le_of_lt hdv, fun _ _ => hdv, fun h => by simp at h⟩
          · simp only [if_neg hdv]
            exact ⟨le_refl _, fun _ h => absurd rfl h, hinv⟩

theorem p2Run_inv (ops : List P2Op) : ∀ m, p2Inv m → p2Inv (p2Run m ops) := by
  induction ops with
  | nil => intro m h; exact h
  | cons op t ih => intro m h; exact ih _ (p2Step_spec m op h).2.2

/-- C2: for every digest, the decision view stored in its P2 metadata never
decreases across any sequence of HandlePhase2, Phase2FB and DecisionFB
processing steps, and the stored p2 decision changes only in a step in
which the decision view strictly increases. -/
theorem c2_p2_view_monotonic (ops : List P2Op) (op : P2Op) :
    (p2Run p2MetaInit ops).decision_view ≤ (p2Step (p2Run p2MetaInit ops) op).decision_view
    ∧ ((p2Run p2MetaInit ops).hasP2 = true →
        (p2Step (p2Run p2MetaInit ops) op).p2Decision ≠ (p2Run p2MetaInit ops).p2Decision →
        (p2Run p2MetaInit ops).decision_view
          < (p2Step (p2Run p2MetaInit ops) op).decision_view) := by
  have hinv := p2Run_inv ops p2MetaInit (fun _ => rfl)
  exact ⟨(p2Step_spec _ op hinv).1, (p2Step_spec _ op hinv).2.1⟩

/-- C2 witness: after a Phase2 installs COMMIT at decision view 0, a
DecisionFB adoption at view 1 that flips the decision to ABORT strictly
raises the decision view. -/
theorem c2_p2_view_monotonic_witness :
    (p2Run p2MetaInit [P2Op.phase2 CommitDecision.COMMIT 5 9 true]).decision_view
      < (p2Step (p2Run p2MetaInit [P2Op.phase2 CommitDecision.COMMIT 5 9 true])
          (P2Op.adopt 1 CommitDecision.ABORT true false)).decision_view :=
  (c2_p2_view_monotonic [P2Op.phase2 CommitDecision.COMMIT 5 9 true]
      (P2Op.adopt 1 CommitDecision.ABORT true false)).2 (by decide) (by decide)

theorem updf_eq_self {α : Type} (f : String → α) (k : String) (v : α) (h : f k = v) :
    updf f k v = f := by
  funext x
  unfold updf
  split
  · rename_i hx
    rw [hx, h]
  · rfl

theorem insertStr_mem_of_mem (x y : String) (l : List String) (h : x ∈ l) :
    x ∈ insertStr y l := by
  unfold insertStr
  split
  · exact h
  · exact List.mem_append_left _ h

theorem insertStr_self_mem (y : String) (l : List String) : y ∈ insertStr y l := by
  unfold insertStr
  split
  · rename_i hc
    exact List.mem_of_elem_eq_true hc
  · exact List.mem_append_right _ (List.mem_singleton.mpr rfl)

theorem manageDepStep_waiting_persist (gid : Int) (reqId remote : Nat) (dig : String)
    (acc : ServerState × Bool) (dep : Dep) (dd : String) (wd : WaitingDep)
    (h1 : acc.fst.waiting dig = some wd) (h2 : wd.original_client = true)
    (h3 : wd.reqId = reqId) (h4 : wd.remote = remote) (h5 : dd ∈ wd.deps) :
    ∃ wd', ((manageDepStep gid reqId remote false false dig acc dep).fst).waiting dig
        = some wd' ∧ wd'.original_client = true ∧ wd'.reqId = reqId ∧
      wd'.remote = remote ∧ dd ∈ wd'.deps := by
  unfold manageDepStep
  dsimp only
  split
  · split
    · exact ⟨wd, h1, h2, h3, h4, h5⟩
    · refine ⟨{ original_client := true, reqId := reqId, remote := remote,
                deps := insertStr dep.write.prepared_txn_digest
                  ((acc.fst.waiting dig).getD waitingDepInit).deps },
        by simp [updf], rfl, rfl, rfl, ?_⟩
      rw [h1]
      simp only [Option.getD_some]
      exact insertStr_mem_of_mem _ _ _ h5
  · exact ⟨wd, h1, h2, h3, h4, h5⟩

theorem manageDepFold_persist (gid : Int) (reqId remote : Nat) (dig dd : String) :
    ∀ (l : List Dep) (acc : ServerState × Bool) (wd : WaitingDep),
      acc.fst.waiting dig = some wd → wd.original_client = true → wd.reqId = reqId →
      wd.remote = remote → dd ∈ wd.deps →
      ∃ wd', ((l.foldl (manageDepStep gid reqId remote false false dig) acc).fst).waiting dig
          = some wd' ∧ wd'.original_client = true ∧ wd'.reqId = reqId ∧
        wd'.remote = remote ∧ dd ∈ wd'.deps := by
  intro l
  induction l with
  | nil => intro acc wd h1 h2 h3 h4 h5; exact ⟨wd, h1, h2, h3, h4, h5⟩
  | cons d t ih =>
    intro acc wd h1 h2 h3 h4 h5
    rw [List.foldl_cons]
    obtain ⟨wd', hw1, hw2, hw3, hw4, hw5⟩ :=
      manageDepStep_waiting_persist gid reqId remote dig acc d dd wd h1 h2 h3 h4 h5
    exact ih _ wd' hw1 hw2 hw3 hw4 hw5

theorem manageDepFold_registers (gid : Int) (reqId remote : Nat) (dig : String) :
    ∀ (l : List Dep) (acc : ServerState × Bool) (dep : Dep),
      dep ∈ l → dep.involved_group = gid →
      acc.fst.committed dep.write.prepared_txn_digest = false →
      acc.fst.aborted dep.write.prepared_txn_digest = false →
      ∃ wd, ((l.foldl (manageDepStep gid reqId remote false false dig) acc).fst).waiting dig
          = some wd ∧ wd.original_client = true ∧ wd.reqId = reqId ∧
        wd.remote = remote ∧ dep.write.prepared_txn_digest ∈ wd.deps := by
  intro l
  induction l with
  | nil => intro acc dep h; cases h
  | cons d t ih =>
    intro acc dep hmem hg hc ha
    rw [List.foldl_cons]
    rcases List.mem_cons.mp hmem with rfl | hmt
    · have hstep : ∃ wd,
          ((manageDepStep gid reqId remote false false dig acc dep).fst).waiting dig
            = some wd ∧ wd.original_client = true ∧ wd.reqId = reqId ∧
          wd.remote = remote ∧ dep.write.prepared_txn_digest ∈ wd.deps := by
        unfold manageDepStep
        dsimp only
        rw [if_pos hg]
        simp only [hc, ha, Bool.or_self, Bool.false_eq_true, if_false]
        exact ⟨{ original_client := true, reqId := reqId, remote := remote,
                 deps := insertStr dep.write.prepared_txn_digest
                   ((acc.fst.waiting dig).getD waitingDepInit).deps },
          by simp [updf], rfl, rfl, rfl, insertStr_self_mem _ _⟩
      obtain ⟨wd, hw1, hw2, hw3, hw4, hw5⟩ := hstep
      exact manageDepFold_persist gid reqId remote dig _ t _ wd hw1 hw2 hw3 hw4 hw5
    · have hsed := manageDepStep_sed gid reqId remote false false dig acc d
      exact ih _ dep hmt hg
        ((congrFun hsed.1 dep.write.prepared_txn_digest).trans hc)
        ((congrFun hsed.2.1 dep.write.prepared_txn_digest).trans ha)

/-- C5: replaying a Phase1 after a terminal (non-WAIT) result was buffered
yields the same decision as the first execution, reusing the cached P1
metadata without touching the state; a buffered terminal result is never
overwritten by BufferP1Result (in particular not by WAIT); and when the
cached result is WAIT the new caller is registered in the waiting entry for
later notification, with no reply sent. -/
theorem c5_phase1_idempotent (p : Params) (gid : Int) (own : String → Bool)
    (localTime timeDelta reqId remote : Nat) (depsValid : Bool) (txnDigest : String)
    (txn : Transaction) (s : ServerState) (m : P1Meta)
    (hmeta : s.p1Meta txnDigest = some m) (hhas : m.hasP1 = true) :
    (m.result ≠ CCResult.Wait →
      handlePhase1 p gid own localTime timeDelta reqId remote false depsValid
          txnDigest txn s
        = (s, some (m.result, m.conflict)))
    ∧ (∀ (n : P1Meta) (r : CCResult) (c : Option Nat), n.hasP1 = true →
        n.result ≠ CCResult.Wait → (bufferP1Result (some n) r c).fst = n)
    ∧ (m.result = CCResult.Wait → p.maxDepDepth > -2 →
        ∀ dep ∈ txn.deps, dep.involved_group = gid →
          s.committed dep.write.prepared_txn_digest = false →
          s.aborted dep.write.prepared_txn_digest = false →
          (handlePhase1 p gid own localTime timeDelta reqId remote false depsValid
              txnDigest txn s).snd = none
          ∧ ∃ wd, ((handlePhase1 p gid own localTime timeDelta reqId remote false depsValid
              txnDigest txn s).fst).waiting txnDigest = some wd ∧
            wd.original_client = true ∧ wd.reqId = reqId ∧ wd.remote = remote ∧
            dep.write.prepared_txn_digest ∈ wd.deps) := by
  have hs0 : ({ s with p1Meta := updf s.p1Meta txnDigest (some m) } : ServerState) = s := by
    rw [updf_eq_self _ _ _ hmeta]
  refine ⟨?_, ?_, ?_⟩
  · intro hnw
    unfold handlePhase1
    rw [hmeta]
    simp only [Option.getD_some, hhas, Bool.and_false, Bool.false_eq_true, if_false,
      if_true]
    rw [if_neg hnw, hs0]
  · intro n r c h1 h2
    unfold bufferP1Result
    simp only [Option.getD_some, h1, Bool.not_true, Bool.false_eq_true, if_false]
    by_cases hr : r = CCResult.Wait
    · rw [if_neg (fun hne => hne hr)]
    · rw [if_pos hr, if_pos h2]
  · intro hwait hdepth dep hdep hg hc ha
    unfold handlePhase1
    rw [hmeta]
    simp only [Option.getD_some, hhas, Bool.and_false, Bool.false_eq_true, if_false,
      if_true]
    rw [if_pos hwait, hs0]
    refine ⟨rfl, ?_⟩
    unfold manageDependencies
    rw [if_pos hdepth]
    exact manageDepFold_registers gid reqId remote txnDigest txn.deps (s, true) dep
      hdep hg hc ha

/-- C5 witness: replaying Phase1 for digest d with buffered COMMIT returns
the cached COMMIT and leaves the state unchanged; replaying Phase1 for
digest w with buffered WAIT sends no reply and registers the caller. -/
theorem c5_phase1_idempotent_witness :
    handlePhase1 pBase 0 (fun _ => true) 10 0 3 4 false true "d" txnEmpty c5TermState
      = (c5TermState, some (CCResult.Commit, none))
    ∧ (((handlePhase1 pBase 0 (fun _ => true) 10 0 3 4 false true "w" c5WaitTxn
        c5WaitState).fst).waiting "w").isSome = true := by
  constructor
  · exact (c5_phase1_idempotent pBase 0 (fun _ => true) 10 0 3 4 true "d" txnEmpty
      c5TermState { hasP1 := true, result := CCResult.Commit, conflict := none }
      rfl rfl).1 (by decide)
  · have h := (c5_phase1_idempotent pBase 0 (fun _ => true) 10 0 3 4 true "w" c5WaitTxn
      c5WaitState { hasP1 := true, result := CCResult.Wait, conflict := none }
      rfl rfl).2.2 rfl (by decide)
      { write := { prepared_txn_digest := "b",
                   prepared_timestamp := { t := 3, id := 0 } }, involved_group := 0 }
      (List.mem_singleton.mpr rfl) rfl rfl rfl
    obtain ⟨wd, hw, _⟩ := h.2
    rw [hw]
    rfl

/-- C7 counterexample: digest d is already in committed, yet HandlePhase1
(whose committed/aborted guard is commented out in the source) re-inserts
the transaction into ongoing, re-runs the concurrency-control check, and
replies with a fresh COMMIT vote instead of forwarding the known outcome or
ignoring the message. -/
theorem c7_phase1_decided_rerun :
    c7State.committed "d" = true
    ∧ ((handlePhase1 pBase 0 (fun _ => true) 10 0 5 6 false true "d" c7Txn
        c7State).fst).ongoing "d" = some c7Txn
    ∧ (handlePhase1 pBase 0 (fun _ => true) 10 0 5 6 false true "d" c7Txn
        c7State).snd = some (CCResult.Commit, none) := by
  refine ⟨by decide, by decide, by decide⟩

/-- C7 (amended): for every Phase1 message whose digest has buffered P1
metadata — which covers every transaction this replica itself processed,
since P1 metadata is never garbage collected — the replica does not re-run
the concurrency-control check and does not re-insert the transaction into
ongoing (ongoing, prepared, preparedWrites and the P1 metadata stay
unchanged), and unless the buffered result is WAIT or the message was
gossiped it replies with the cached result.  A digest decided only through a
Writeback carrying the full transaction has no P1 metadata and is
re-processed as a fresh Phase1. -/
theorem c7_phase1_metadata_replay (p : Params) (gid : Int) (own : String → Bool)
    (localTime timeDelta reqId remote : Nat) (replicaGossip depsValid : Bool)
    (txnDigest : String) (txn : Transaction) (s : ServerState) (m : P1Meta)
    (hmeta : s.p1Meta txnDigest = some m) (hhas : m.hasP1 = true) :
    ((handlePhase1 p gid own localTime timeDelta reqId remote replicaGossip depsValid
        txnDigest txn s).fst).ongoing = s.ongoing
    ∧ ((handlePhase1 p gid own localTime timeDelta reqId remote replicaGossip depsValid
        txnDigest txn s).fst).prepared = s.prepared
    ∧ ((handlePhase1 p gid own localTime timeDelta reqId remote replicaGossip depsValid
        txnDigest txn s).fst).preparedWrites = s.preparedWrites
    ∧ ((handlePhase1 p gid own localTime timeDelta reqId remote replicaGossip depsValid
        txnDigest txn s).fst).p1Meta = s.p1Meta
    ∧ (replicaGossip = false → m.result ≠ CCResult.Wait →
        (handlePhase1 p gid own localTime timeDelta reqId remote replicaGossip depsValid
          txnDigest txn s).snd = some (m.result, m.conflict)) := by
  have hs0 : ({ s with p1Meta := updf s.p1Meta txnDigest (some m) } : ServerState) = s := by
    rw [updf_eq_self _ _ _ hmeta]
  cases replicaGossip with
  | true =>
    unfold handlePhase1
    rw [hmeta]
    simp only [Option.getD_some, hhas, Bool.and_true, if_true]
    exact ⟨trivial, trivial, trivial, updf_eq_self _ _ _ hmeta, fun h => Bool.noConfusion h⟩
  | false =>
    unfold handlePhase1
    rw [hmeta]
    simp only [Option.getD_some, hhas, Bool.and_false, Bool.false_eq_true, if_false,
      if_true]
    by_cases hw : m.result = CCResult.Wait
    · rw [if_pos hw, hs0]
      have hsed := manageDependencies_sed p gid reqId remote false false txnDigest txn s
      exact ⟨hsed.2.2.1, hsed.2.2.2.1, hsed.2.2.2.2.2.1, hsed.2.2.2.2.2.2.2.2.2.1,
        fun _ hnw => absurd hw hnw⟩
    · rw [if_neg hw, hs0]
      exact ⟨rfl, rfl, rfl, rfl, fun _ _ => rfl⟩

/-- C7 witness: replaying Phase1 for digest d with buffered COMMIT metadata
leaves ongoing empty and replies with the cached COMMIT. -/
theorem c7_phase1_metadata_replay_witness :
    ((handlePhase1 pBase 0 (fun _ => true) 10 0 5 6 false true "d" txnEmpty
        c5TermState).fst).ongoing "d" = none
    ∧ (handlePhase1 pBase 0 (fun _ => true) 10 0 5 6 false true "d" txnEmpty
        c5TermState).snd = some (CCResult.Commit, none) := by
  have h := c7_phase1_metadata_replay pBase 0 (fun _ => true) 10 0 5 6 false true "d"
    txnEmpty c5TermState { hasP1 := true, result := CCResult.Commit, conflict := none }
    rfl rfl
  refine ⟨?_, h.2.2.2.2 rfl (by decide)⟩
  rw [congrFun h.1 "d"]
  rfl

theorem getCommittedWrites_find_none (s : ServerState) (ts : TS) (r : ReadOp)
    (h : ∀ w ∈ s.store r.key,
        ¬(TS.lt r.readtime w.fst = true ∧ TS.lt w.fst ts = true)) :
    (getCommittedWrites (s.store r.key) r.readtime).find? (fun w => TS.lt w.fst ts)
      = none := by
  rw [List.find?_eq_none]
  intro w hw
  unfold getCommittedWrites at hw
  have hm := List.mem_filter.mp hw
  intro hlt
  exact h w hm.1 ⟨hm.2, hlt⟩

theorem readConflictCheck_none (p : Params) (s : ServerState) (own : String → Bool)
    (ts : TS) :
    ∀ l : List ReadOp,
      (∀ r ∈ l, own r.key = true → ∀ w ∈ s.store r.key,
        ¬(TS.lt r.readtime w.fst = true ∧ TS.lt w.fst ts = true)) →
      (∀ r ∈ l, own r.key = true → ∀ pw ∈ s.preparedWrites r.key,
        ¬(TS.lt r.readtime pw.fst = true ∧ TS.lt pw.fst ts = true)) →
      readConflictCheck p s own ts l = none := by
  intro l
  induction l with
  | nil => intro _ _; rfl
  | cons r t ih =>
    intro hnc hnpw
    have htail := ih (fun x hx => hnc x (List.mem_cons_of_mem _ hx))
      (fun x hx => hnpw x (List.mem_cons_of_mem _ hx))
    by_cases ho : own r.key = true
    · have hcm := getCommittedWrites_find_none s ts r
        (hnc r (List.mem_cons_self r t) ho)
      have hpm : (s.preparedWrites r.key).find?
          (fun pw => TS.lt r.readtime pw.fst && TS.lt pw.fst ts) = none := by
        rw [List.find?_eq_none]
        intro pw hpw hb
        rcases Bool.and_eq_true_iff.mp hb with ⟨h1, h2⟩
        exact hnpw r (List.mem_cons_self r t) ho pw hpw ⟨h1, h2⟩
      simp only [readConflictCheck, ho, if_true, hcm, hpm]
      exact htail
    · simp only [readConflictCheck, ho, if_false]
      exact htail

theorem readConflictCheck_abstains (p : Params) (s : ServerState) (own : String → Bool)
    (ts : TS) :
    ∀ l : List ReadOp,
      (∀ r ∈ l, own r.key = true → ∀ w ∈ s.store r.key,
        ¬(TS.lt r.readtime w.fst = true ∧ TS.lt w.fst ts = true)) →
      (∃ r ∈ l, own r.key = true ∧ ∃ pw ∈ s.preparedWrites r.key,
        TS.lt r.readtime pw.fst = true ∧ TS.lt pw.fst ts = true) →
      ∃ r ∈ l, own r.key = true ∧ ∃ pw ∈ s.preparedWrites r.key,
        TS.lt r.readtime pw.fst = true ∧ TS.lt pw.fst ts = true ∧
        readConflictCheck p s own ts l = some (CCResult.Abstain, none, some pw.snd) := by
  intro l
  induction l with
  | nil =>
    intro _ hex
    obtain ⟨r, hr, _⟩ := hex
    cases hr
  | cons r t ih =>
    intro hnc hex
    by_cases ho : own r.key = true
    · have hcm := getCommittedWrites_find_none s ts r
        (hnc r (List.mem_cons_self r t) ho)
      cases hf : (s.preparedWrites r.key).find?
          (fun pw => TS.lt r.readtime pw.fst && TS.lt pw.fst ts) with
      | some pw =>
        have hps := List.find?_some hf
        simp only [Bool.and_eq_true_iff] at hps
        refine ⟨r, List.mem_cons_self r t, ho, pw, List.mem_of_find?_eq_some hf,
          hps.1, hps.2, ?_⟩
        simp only [readConflictCheck, ho, if_true, hcm, hf]
      | none =>
        have hhead : ∀ pw ∈ s.preparedWrites r.key,
            ¬(TS.lt r.readtime pw.fst = true ∧ TS.lt pw.fst ts = true) := by
          intro pw hpw hb
          have := List.find?_eq_none.mp hf pw hpw
          exact this (Bool.and_eq_true_iff.mpr hb)
        have hext : ∃ x ∈ t, own x.key = true ∧ ∃ pw ∈ s.preparedWrites x.key,
            TS.lt x.readtime pw.fst = true ∧ TS.lt pw.fst ts = true := by
          obtain ⟨x, hx, hox, pw, hpw, h1, h2⟩ := hex
          rcases List.mem_cons.mp hx with rfl | hxt
          · exact absurd ⟨h1, h2⟩ (hhead pw hpw)
          · exact ⟨x, hxt, hox, pw, hpw, h1, h2⟩
        obtain ⟨x, hx, hox, pw, hpw, h1, h2, heq⟩ :=
          ih (fun y hy => hnc y (List.mem_cons_of_mem _ hy)) hext
        refine ⟨x, List.mem_cons_of_mem _ hx, hox, pw, hpw, h1, h2, ?_⟩
        simp only [readConflictCheck, ho, if_true, hcm, hf]
        exact heq
    · obtain ⟨x, hx, hox, pw, hpw, h1, h2⟩ := hex
      have hxt : x ∈ t := by
        rcases List.mem_cons.mp hx with rfl | hxt
        · exact absurd hox ho
        · exact hxt
      obtain ⟨y, hy, hoy, pw2, hpw2, g1, g2, heq⟩ :=
        ih (fun z hz => hnc z (List.mem_cons_of_mem _ hz)) ⟨x, hxt, hox, pw, hpw, h1, h2⟩
      refine ⟨y, List.mem_cons_of_mem _ hy, hoy, pw2, hpw2, g1, g2, ?_⟩
      simp only [readConflictCheck, ho, if_false]
      exact heq

theorem occFinish_no_deps (p : Params) (gid : Int) (reqId remote : Nat) (fb rg : Bool)
    (dig : String) (txn : Transaction) (s1 : ServerState) (hdeps : txn.deps = []) :
    (occFinish p gid reqId remote fb rg dig txn s1).result = CCResult.Commit := by
  unfold occFinish
  dsimp only
  have hmd : manageDependencies p gid reqId remote fb rg dig txn s1 = (s1, true) := by
    unfold manageDependencies
    rw [hdeps]
    split <;> rfl
  rw [hmd]
  simp only [if_true]
  simp [checkDependenciesTxn, hdeps, checkDependenciesTxn.go]

/-- C1: in the MVTSO check of a transaction with timestamp ts (not already
prepared, below the watermark, with no committed-write conflict on its
reads), a prepared write strictly between some read's version and ts makes
the check return ABSTAIN and record a strictly-between prepared write as the
abstain conflict; and with every prepared write on its read keys outside the
open interval (in particular one at exactly the read version), no writes and
no dependencies, the check returns COMMIT — so a prepared write at exactly
the read version triggers no conflict while one strictly above it (below ts)
triggers ABSTAIN. -/
theorem c1_mvtso_prepared_write_conflict (p : Params) (gid : Int) (own : String → Bool)
    (localTime timeDelta reqId remote : Nat) (fb rg : Bool) (txnDigest : String)
    (txn : Transaction) (s : ServerState)
    (hnp : s.prepared txnDigest = none)
    (hwm : checkHighWatermark txn.timestamp localTime timeDelta = false)
    (hnc : ∀ r ∈ txn.read_set, own r.key = true → ∀ w ∈ s.store r.key,
      ¬(TS.lt r.readtime w.fst = true ∧ TS.lt w.fst txn.timestamp = true)) :
    ((∃ r ∈ txn.read_set, own r.key = true ∧ ∃ pw ∈ s.preparedWrites r.key,
        TS.lt r.readtime pw.fst = true ∧ TS.lt pw.fst txn.timestamp = true) →
      (doMVTSOOCCCheck p gid own localTime timeDelta reqId remote fb rg txnDigest txn
          s).result = CCResult.Abstain
      ∧ ∃ r ∈ txn.read_set, own r.key = true ∧ ∃ pw ∈ s.preparedWrites r.key,
          TS.lt r.readtime pw.fst = true ∧ TS.lt pw.fst txn.timestamp = true ∧
          (doMVTSOOCCCheck p gid own localTime timeDelta reqId remote fb rg txnDigest txn
            s).abstainConflict = some pw.snd)
    ∧ ((∀ r ∈ txn.read_set, own r.key = true → ∀ pw ∈ s.preparedWrites r.key,
          ¬(TS.lt r.readtime pw.fst = true ∧ TS.lt pw.fst txn.timestamp = true)) →
        writeConflictCheck p s own txnDigest txn.timestamp txn.write_set = none →
        txn.deps = [] →
        (doMVTSOOCCCheck p gid own localTime timeDelta reqId remote fb rg txnDigest txn
          s).result = CCResult.Commit) := by
  constructor
  · intro hex
    obtain ⟨r, hr, ho, pw, hpw, h1, h2, heq⟩ :=
      readConflictCheck_abstains p s own txn.timestamp txn.read_set hnc hex
    unfold doMVTSOOCCCheck
    dsimp only
    simp only [hnp, Option.isSome_none, Bool.false_eq_true, if_false, hwm, heq]
    exact ⟨by trivial, r, hr, ho, pw, hpw, h1, h2, by trivial⟩
  · intro hnone hwc hdeps
    have hrc := readConflictCheck_none p s own txn.timestamp txn.read_set hnc hnone
    have hdc : depClosureCheck p gid s txn.deps = false := by
      unfold depClosureCheck
      rw [hdeps]
      simp
    unfold doMVTSOOCCCheck
    dsimp only
    simp only [hnp, Option.isSome_none, Bool.false_eq_true, if_false, hwm, hrc, hwc, hdc]
    exact occFinish_no_deps p gid reqId remote fb rg txnDigest txn _ hdeps

/-- C1 witness: with a read of k at version 3 and transaction timestamp 10,
a prepared write on k at timestamp 5 makes the MVTSO check ABSTAIN, while a
prepared write at exactly timestamp 3 lets it COMMIT. -/
theorem c1_mvtso_prepared_write_conflict_witness :
    (doMVTSOOCCCheck pBase 0 (fun _ => true) 10 0 1 2 false false "a" c1TxnA
      c1StateA).result = CCResult.Abstain
    ∧ (doMVTSOOCCCheck pBase 0 (fun _ => true) 10 0 1 2 false false "a" c1TxnA
      c1StateB).result = CCResult.Commit := by
  constructor
  · refine ((c1_mvtso_prepared_write_conflict pBase 0 (fun _ => true) 10 0 1 2 false false
      "a" c1TxnA c1StateA rfl (by decide) ?_).1 ?_).1
    · intro r hr ho w hw
      simp [c1StateA, emptyState] at hw
    · refine ⟨{ key := "k", readtime := { t := 3, id := 0 } }, ?_, rfl,
        ({ t := 5, id := 0 }, txnEmpty), ?_, by decide, by decide⟩
      · simp [c1TxnA]
      · simp [c1StateA, updf]
  · refine (c1_mvtso_prepared_write_conflict pBase 0 (fun _ => true) 10 0 1 2 false false
      "a" c1TxnA c1StateB rfl (by decide) ?_).2 ?_ (by decide) rfl
    · intro r hr ho w hw
      simp [c1StateB, emptyState] at hw
    · intro r hr ho pw hpw hb
      simp [c1TxnA] at hr
      subst hr
      simp [c1StateB, emptyState, updf] at hpw
      rw [hpw] at hb
      exact absurd hb.1 (by decide)

theorem electStep_eq_dup (f : Nat) (org : ElectFBorganizer) (e : ElectVote)
    (h : (org.voters e.view e.dec).contains e.pid = true) :
    electStep f org e = (org, none) := by
  unfold electStep preProcessElectFB
  rw [if_pos h]
  rfl

theorem electStep_eq_invalid (f : Nat) (org : ElectFBorganizer) (e : ElectVote)
    (h : ¬((org.voters e.view e.dec).contains e.pid = true)) (hv : e.valid = false) :
    electStep f org e = ({ org with voters := upd2 org.voters e.view e.dec
                                      (org.voters e.view e.dec ++ [e.pid]) }, none) := by
  unfold electStep preProcessElectFB
  rw [if_neg h]
  simp [hv]

theorem electStep_eq_fresh (f : Nat) (org : ElectFBorganizer) (e : ElectVote)
    (h : ¬((org.voters e.view e.dec).contains e.pid = true)) (hv : e.valid = true) :
    electStep f org e = processElectFB f
      { org with voters := upd2 org.voters e.view e.dec
                             (org.voters e.view e.dec ++ [e.pid]) }
      e.view e.dec e.sig e.pid := by
  unfold electStep preProcessElectFB
  rw [if_neg h]
  simp [hv]

theorem processElectFB_eq_complete (f : Nat) (org : ElectFBorganizer) (v : Nat)
    (d : CommitDecision) (sig pid : Nat) (h : org.viewComplete v = true) :
    processElectFB f org v d sig pid = (org, none) := by
  unfold processElectFB
  rw [if_pos h]

theorem processElectFB_eq_quorum (f : Nat) (org : ElectFBorganizer) (v : Nat)
    (d : CommitDecision) (sig pid : Nat) (h : ¬(org.viewComplete v = true))
    (hc : org.count v d + 1 = 2 * f + 1) :
    processElectFB f org v d sig pid =
      ({ org with
          sigs := upd2 (upd2 org.sigs v d (org.sigs v d ++ [(pid, sig)])) v d [],
          count := upd2 org.count v d (org.count v d + 1),
          viewComplete := fun w => if w = v then true else org.viewComplete w },
        some { view := v, dec := d, sigs := org.sigs v d ++ [(pid, sig)] }) := by
  unfold processElectFB
  rw [if_neg h]
  dsimp only
  rw [if_pos hc]

theorem processElectFB_eq_noquorum (f : Nat) (org : ElectFBorganizer) (v : Nat)
    (d : CommitDecision) (sig pid : Nat) (h : ¬(org.viewComplete v = true))
    (hc : ¬(org.count v d + 1 = 2 * f + 1)) :
    processElectFB f org v d sig pid =
      ({ org with
          sigs := upd2 org.sigs v d (org.sigs v d ++ [(pid, sig)]),
          count := upd2 org.count v d (org.count v d + 1) },
        none) := by
  unfold processElectFB
  rw [if_neg h]
  dsimp only
  rw [if_neg hc]

theorem electStep_eq_complete (f : Nat) (org : ElectFBorganizer) (e : ElectVote)
    (hdup : ¬((org.voters e.view e.dec).contains e.pid = true)) (hv : e.valid = true)
    (hcomp : org.viewComplete e.view = true) :
    electStep f org e = ({ org with voters := upd2 org.voters e.view e.dec
                                      (org.voters e.view e.dec ++ [e.pid]) }, none) := by
  rw [electStep_eq_fresh f org e hdup hv]
  exact processElectFB_eq_complete f _ e.view e.dec e.sig e.pid hcomp

theorem electStep_eq_quorum (f : Nat) (org : ElectFBorganizer) (e : ElectVote)
    (hdup : ¬((org.voters e.view e.dec).contains e.pid = true)) (hv : e.valid = true)
    (hcomp : ¬(org.viewComplete e.view = true))
    (hq : org.count e.view e.dec + 1 = 2 * f + 1) :
    electStep f org e =
      ({ voters := upd2 org.voters e.view e.dec (org.voters e.view e.dec ++ [e.pid]),
         sigs := upd2 (upd2 org.sigs e.view e.dec
                  (org.sigs e.view e.dec ++ [(e.pid, e.sig)])) e.view e.dec [],
         count := upd2 org.count e.view e.dec (org.count e.view e.dec + 1),
         viewComplete := fun w => if w = e.view then true else org.viewComplete w },
       some { view := e.view, dec := e.dec,
              sigs := org.sigs e.view e.dec ++ [(e.pid, e.sig)] }) := by
  rw [electStep_eq_fresh f org e hdup hv]
  exact processElectFB_eq_quorum f _ e.view e.dec e.sig e.pid hcomp hq

theorem electStep_eq_noquorum (f : Nat) (org : ElectFBorganizer) (e : ElectVote)
    (hdup : ¬((org.voters e.view e.dec).contains e.pid = true)) (hv : e.valid = true)
    (hcomp : ¬(org.viewComplete e.view = true))
    (hq : ¬(org.count e.view e.dec + 1 = 2 * f + 1)) :
    electStep f org e =
      ({ voters := upd2 org.voters e.view e.dec (org.voters e.view e.dec ++ [e.pid]),
         sigs := upd2 org.sigs e.view e.dec (org.sigs e.view e.dec ++ [(e.pid, e.sig)]),
         count := upd2 org.count e.view e.dec (org.count e.view e.dec + 1),
         viewComplete := org.viewComplete },
       none) := by
  rw [electStep_eq_fresh f org e hdup hv]
  exact processElectFB_eq_noquorum f _ e.view e.dec e.sig e.pid hcomp hq

theorem electStep_complete_mono (f : Nat) (org : ElectFBorganizer) (e : ElectVote)
    (v : Nat) (h : org.viewComplete v = true) :
    ((electStep f org e).fst).viewComplete v = true := by
  by_cases hdup : (org.voters e.view e.dec).contains e.pid = true
  · rw [electStep_eq_dup f org e hdup]
    exact h
  · cases hv : e.valid with
    | false =>
      rw [electStep_eq_invalid f org e hdup hv]
      exact h
    | true =>
      by_cases hcomp : org.viewComplete e.view = true
      · rw [electStep_eq_complete f org e hdup hv hcomp]
        exact h
      · by_cases hq : org.count e.view e.dec + 1 = 2 * f + 1
        · rw [electStep_eq_quorum f org e hdup hv hcomp hq]
          dsimp only
          split
          · rfl
          · exact h
        · rw [electStep_eq_noquorum f org e hdup hv hcomp hq]
          exact h

theorem electStep_emit (f : Nat) (org : ElectFBorganizer) (e : ElectVote)
    (em : DecisionFBMsg) (h : (electStep f org e).snd = some em) :
    org.viewComplete em.view = false
    ∧ ((electStep f org e).fst).viewComplete em.view = true := by
  by_cases hdup : (org.voters e.view e.dec).contains e.pid = true
  · rw [electStep_eq_dup f org e hdup] at h
    exact Option.noConfusion h
  · cases hv : e.valid with
    | false =>
      rw [electStep_eq_invalid f org e hdup hv] at h
      exact Option.noConfusion h
    | true =>
      by_cases hcomp : org.viewComplete e.view = true
      · rw [electStep_eq_complete f org e hdup hv hcomp] at h
        exact Option.noConfusion h
      · by_cases hq : org.count e.view e.dec + 1 = 2 * f + 1
        · rw [electStep_eq_quorum f org e hdup hv hcomp hq] at h ⊢
          injection h with hem
          subst hem
          constructor
          · simpa using hcomp
          · simp
        · rw [electStep_eq_noquorum f org e hdup hv hcomp hq] at h
          exact Option.noConfusion h

theorem electRun_no_emit_of_complete (f : Nat) (v : Nat) :
    ∀ (events : List ElectVote) (org : ElectFBorganizer),
      org.viewComplete v = true →
      ∀ em ∈ (electRun f org events).snd, em.view ≠ v := by
  intro events
  induction events with
  | nil => intro org _ em hem; cases hem
  | cons e rest ih =>
    intro org hc em hem
    unfold electRun at hem
    dsimp only at hem
    rcases List.mem_append.mp hem with hhead | htail
    · cases hst : (electStep f org e).snd with
      | none => rw [hst] at hhead; cases hhead
      | some em0 =>
        rw [hst] at hhead
        simp only [Option.toList_some, List.mem_singleton] at hhead
        subst hhead
        intro hv
        have := (electStep_emit f org e em hst).1
        rw [hv, hc] at this
        exact Bool.noConfusion this
    · exact ih (electStep f org e).fst (electStep_complete_mono f org e v hc) em htail

theorem electRun_once_per_view (f : Nat) (v : Nat) :
    ∀ (events : List ElectVote) (org : ElectFBorganizer),
      (((electRun f org events).snd).filter (fun em => em.view == v)).length ≤ 1 := by
  intro events
  induction events with
  | nil => intro org; simp [electRun]
  | cons e rest ih =>
    intro org
    unfold electRun
    dsimp only
    rw [List.filter_append]
    cases hst : (electStep f org e).snd with
    | none =>
      simp only [Option.toList_none, List.filter_nil, List.nil_append]
      exact ih _
    | some em0 =>
      simp only [Option.toList_some]
      by_cases hv : em0.view = v
      · have hcomp := (electStep_emit f org e em0 hst).2
        rw [hv] at hcomp
        have hnone := electRun_no_emit_of_complete f v rest (electStep f org e).fst hcomp
        have hfil : ((electRun f (electStep f org e).fst rest).snd).filter
            (fun em => em.view == v) = [] := by
          rw [List.filter_eq_nil_iff]
          intro a ha
          simp only [beq_iff_eq]
          exact hnone a ha
        rw [hfil]
        simp [hv]
      · have hfil0 : List.filter (fun em => em.view == v) [em0] = [] := by
          simp [hv]
        rw [hfil0, List.nil_append]
        exact ih _

theorem electInv_mono (org : ElectFBorganizer)
    (P Q : Nat → CommitDecision → Nat × Nat → Prop)
    (hpq : ∀ v d pr, P v d pr → Q v d pr) (h : electInv org P) : electInv org Q := by
  intro v d
  obtain ⟨h1, h2, h3, h4⟩ := h v d
  exact ⟨h1, h2, fun pr hpr => hpq v d pr (h3 pr hpr), h4⟩

theorem electInv_insert_voter (org : ElectFBorganizer) (e : ElectVote)
    (P : Nat → CommitDecision → Nat × Nat → Prop) (h : electInv org P) :
    electInv { org with voters := upd2 org.voters e.view e.dec
                          (org.voters e.view e.dec ++ [e.pid]) } P := by
  intro v d
  obtain ⟨h1, h2, h3, h4⟩ := h v d
  refine ⟨h1, h2, h3, ?_⟩
  intro pr hpr
  dsimp only
  unfold upd2
  split
  · rename_i hvd
    obtain ⟨hv, hd⟩ := hvd
    subst hv
    subst hd
    exact List.mem_append_left _ (h4 pr hpr)
  · exact h4 pr hpr

theorem electStep_inv (f : Nat) (org : ElectFBorganizer) (e : ElectVote)
    (P : Nat → CommitDecision → Nat × Nat → Prop) (hinv : electInv org P) :
    electInv (electStep f org e).fst
      (fun v d pr => P v d pr ∨ (e.valid = true ∧ e.view = v ∧ e.dec = d ∧
        e.pid = pr.fst ∧ e.sig = pr.snd))
    ∧ (∀ em, (electStep f org e).snd = some em →
        em.sigs.length = 2 * f + 1 ∧ (em.sigs.map Prod.fst).Nodup ∧
        ∀ pr ∈ em.sigs, P em.view em.dec pr ∨ (e.valid = true ∧ e.view = em.view ∧
          e.dec = em.dec ∧ e.pid = pr.fst ∧ e.sig = pr.snd)) := by
  have hmono : ∀ (v : Nat) (d : CommitDecision) (pr : Nat × Nat), P v d pr →
      P v d pr ∨ (e.valid = true ∧ e.view = v ∧ e.dec = d ∧ e.pid = pr.fst ∧
        e.sig = pr.snd) := fun v d pr hp => Or.inl hp
  by_cases hdup : (org.voters e.view e.dec).contains e.pid = true
  · rw [electStep_eq_dup f org e hdup]
    exact ⟨electInv_mono org _ _ hmono hinv, fun em hem => Option.noConfusion hem⟩
  · by_cases hv : e.valid = true
    case neg =>
      have hv0 : e.valid = false := by simpa using hv
      rw [electStep_eq_invalid f org e hdup hv0]
      exact ⟨electInv_mono _ _ _ hmono (electInv_insert_voter org e P hinv),
        fun em hem => Option.noConfusion hem⟩
    case pos =>
      have hpidvot : e.pid ∉ org.voters e.view e.dec := by
        intro hmem
        exact hdup (List.elem_eq_true_of_mem hmem)
      have hpidsig : e.pid ∉ (org.sigs e.view e.dec).map Prod.fst := by
        intro hmem
        obtain ⟨pr, hpr, hfst⟩ := List.mem_map.mp hmem
        exact hpidvot (hfst ▸ (hinv e.view e.dec).2.2.2 pr hpr)
      have hnodup : ((org.sigs e.view e.dec ++ [(e.pid, e.sig)]).map Prod.fst).Nodup := by
        rw [List.map_append, List.nodup_append]
        refine ⟨(hinv e.view e.dec).2.1, List.nodup_singleton _, ?_⟩
        intro a ha hb
        simp only [List.map_cons, List.map_nil, List.mem_singleton] at hb
        subst hb
        exact hpidsig ha
      have horig : ∀ pr ∈ org.sigs e.view e.dec ++ [(e.pid, e.sig)],
          P e.view e.dec pr ∨ (e.valid = true ∧ e.view = e.view ∧ e.dec = e.dec ∧
            e.pid = pr.fst ∧ e.sig = pr.snd) := by
        intro pr hpr
        rcases List.mem_append.mp hpr with hold | hnew
        · exact Or.inl ((hinv e.view e.dec).2.2.1 pr hold)
        · rw [List.mem_singleton] at hnew
          subst hnew
          exact Or.inr ⟨hv, rfl, rfl, rfl, rfl⟩
      have hvoters : ∀ pr ∈ org.sigs e.view e.dec ++ [(e.pid, e.sig)],
          pr.fst ∈ org.voters e.view e.dec ++ [e.pid] := by
        intro pr hpr
        rcases List.mem_append.mp hpr with hold | hnew
        · exact List.mem_append_left _ ((hinv e.view e.dec).2.2.2 pr hold)
        · rw [List.mem_singleton] at hnew
          subst hnew
          exact List.mem_append_right _ (List.mem_singleton.mpr rfl)
      by_cases hcomp : org.viewComplete e.view = true
      · rw [electStep_eq_complete f org e hdup hv hcomp]
        exact ⟨electInv_mono _ _ _ hmono (electInv_insert_voter org e P hinv),
          fun em hem => Option.noConfusion hem⟩
      · have hcompF : org.viewComplete e.view = false := by simpa using hcomp
        by_cases hq : org.count e.view e.dec + 1 = 2 * f + 1
        · rw [electStep_eq_quorum f org e hdup hv hcomp hq]
          constructor
          · intro v d
            dsimp only
            by_cases hve : v = e.view
            · by_cases hde : d = e.dec
              · have hsig : upd2 (upd2 org.sigs e.view e.dec
                    (org.sigs e.view e.dec ++ [(e.pid, e.sig)])) e.view e.dec [] v d
                      = ([] : List (Nat × Nat)) := by
                  simp [upd2, hve, hde]
                refine ⟨?_, ?_, ?_, ?_⟩
                · intro hfalse
                  rw [if_pos hve] at hfalse
                  exact Bool.noConfusion hfalse
                · rw [hsig]
                  exact List.nodup_nil
                · rw [hsig]
                  intro pr hpr
                  cases hpr
                · rw [hsig]
                  intro pr hpr
                  cases hpr
              · have hsig : upd2 (upd2 org.sigs e.view e.dec
                    (org.sigs e.view e.dec ++ [(e.pid, e.sig)])) e.view e.dec [] v d
                      = org.sigs v d := by
                  simp [upd2, hde]
                have hvot : upd2 org.voters e.view e.dec
                    (org.voters e.view e.dec ++ [e.pid]) v d = org.voters v d := by
                  simp [upd2, hde]
                refine ⟨?_, ?_, ?_, ?_⟩
                · intro hfalse
                  rw [if_pos hve] at hfalse
                  exact Bool.noConfusion hfalse
                · rw [hsig]
                  exact (hinv v d).2.1
                · rw [hsig]
                  exact fun pr hpr => Or.inl ((hinv v d).2.2.1 pr hpr)
                · rw [hsig, hvot]
                  exact (hinv v d).2.2.2
            · have hsig : upd2 (upd2 org.sigs e.view e.dec
                  (org.sigs e.view e.dec ++ [(e.pid, e.sig)])) e.view e.dec [] v d
                    = org.sigs v d := by
                simp [upd2, hve]
              have hvot : upd2 org.voters e.view e.dec
                  (org.voters e.view e.dec ++ [e.pid]) v d = org.voters v d := by
                simp [upd2, hve]
              have hcnt : upd2 org.count e.view e.dec (org.count e.view e.dec + 1) v d
                  = org.count v d := by
                simp [upd2, hve]
              refine ⟨?_, ?_, ?_, ?_⟩
              · intro hfalse
                rw [if_neg hve] at hfalse
                rw [hsig, hcnt]
                exact (hinv v d).1 hfalse
              · rw [hsig]
                exact (hinv v d).2.1
              · rw [hsig]
                exact fun pr hpr => Or.inl ((hinv v d).2.2.1 pr hpr)
              · rw [hsig, hvot]
                exact (hinv v d).2.2.2
          · intro em hem
            injection hem with hem
            subst hem
            refine ⟨?_, hnodup, horig⟩
            rw [List.length_append, List.length_singleton,
              (hinv e.view e.dec).1 hcompF]
            exact hq
        · rw [electStep_eq_noquorum f org e hdup hv hcomp hq]
          refine ⟨?_, fun em hem => Option.noConfusion hem⟩
          intro v d
          dsimp only
          by_cases hve : v = e.view
          · by_cases hde : d = e.dec
            · have hsig : upd2 org.sigs e.view e.dec
                  (org.sigs e.view e.dec ++ [(e.pid, e.sig)]) v d
                    = org.sigs e.view e.dec ++ [(e.pid, e.sig)] := by
                simp [upd2, hve, hde]
              have hcnt : upd2 org.count e.view e.dec (org.count e.view e.dec + 1) v d
                  = org.count e.view e.dec + 1 := by
                simp [upd2, hve, hde]
              have hvot : upd2 org.voters e.view e.dec
                  (org.voters e.view e.dec ++ [e.pid]) v d
                    = org.voters e.view e.dec ++ [e.pid] := by
                simp [upd2, hve, hde]
              refine ⟨?_, ?_, ?_, ?_⟩
              · intro hfalse
                rw [hsig, hcnt, List.length_append, List.length_singleton,
                  (hinv e.view e.dec).1 (hve ▸ hfalse)]
              · rw [hsig]
                exact hnodup
              · rw [hsig]
                rw [hve, hde]
                exact horig
              · rw [hsig, hvot]
                exact hvoters
            · have hsig : upd2 org.sigs e.view e.dec
                  (org.sigs e.view e.dec ++ [(e.pid, e.sig)]) v d = org.sigs v d := by
                simp [upd2, hde]
              have hcnt : upd2 org.count e.view e.dec (org.count e.view e.dec + 1) v d
                  = org.count v d := by
                simp [upd2, hde]
              have hvot : upd2 org.voters e.view e.dec
                  (org.voters e.view e.dec ++ [e.pid]) v d = org.voters v d := by
                simp [upd2, hde]
              refine ⟨?_, ?_, ?_, ?_⟩
              · intro hfalse
                rw [hsig, hcnt]
                exact (hinv v d).1 hfalse
              · rw [hsig]
                exact (hinv v d).2.1
              · rw [hsig]
                exact fun pr hpr => Or.inl ((hinv v d).2.2.1 pr hpr)
              · rw [hsig, hvot]
                exact (hinv v d).2.2.2
          · have hsig : upd2 org.sigs e.view e.dec
                (org.sigs e.view e.dec ++ [(e.pid, e.sig)]) v d = org.sigs v d := by
              simp [upd2, hve]
            have hcnt : upd2 org.count e.view e.dec (org.count e.view e.dec + 1) v d
                = org.count v d := by
              simp [upd2, hve]
            have hvot : upd2 org.voters e.view e.dec
                (org.voters e.view e.dec ++ [e.pid]) v d = org.voters v d := by
              simp [upd2, hve]
            refine ⟨?_, ?_, ?_, ?_⟩
            · intro hfalse
              rw [hsig, hcnt]
              exact (hinv v d).1 hfalse
            · rw [hsig]
              exact (hinv v d).2.1
            · rw [hsig]
              exact fun pr hpr => Or.inl ((hinv v d).2.2.1 pr hpr)
            · rw [hsig, hvot]
              exact (hinv v d).2.2.2

theorem electRun_emit_spec (f : Nat) :
    ∀ (events : List ElectVote) (org : ElectFBorganizer)
      (P : Nat → CommitDecision → Nat × Nat → Prop), electInv org P →
      ∀ em ∈ (electRun f org events).snd,
        em.sigs.length = 2 * f + 1 ∧ (em.sigs.map Prod.fst).Nodup ∧
        ∀ pr ∈ em.sigs, P em.view em.dec pr ∨ voteOrigin events em.view em.dec pr := by
  intro events
  induction events with
  | nil => intro org P _ em hem; cases hem
  | cons e rest ih =>
    intro org P hinv em hem
    unfold electRun at hem
    dsimp only at hem
    have hstep := electStep_inv f org e P hinv
    rcases List.mem_append.mp hem with hhead | htail
    · cases hst : (electStep f org e).snd with
      | none => rw [hst] at hhead; cases hhead
      | some em0 =>
        rw [hst] at hhead
        simp only [Option.toList_some, List.mem_singleton] at hhead
        subst hhead
        obtain ⟨hlen, hnd, hor⟩ := hstep.2 _ hst
        refine ⟨hlen, hnd, ?_⟩
        intro pr hpr
        rcases hor pr hpr with hp | he
        · exact Or.inl hp
        · exact Or.inr ⟨e, List.mem_cons_self e rest, he.1, he.2.1, he.2.2.1,
            he.2.2.2.1, he.2.2.2.2⟩
    · have hrec := ih (electStep f org e).fst _ hstep.1 em htail
      refine ⟨hrec.1, hrec.2.1, ?_⟩
      intro pr hpr
      rcases hrec.2.2 pr hpr with hPe | ho
      · rcases hPe with hp | he
        · exact Or.inl hp
        · exact Or.inr ⟨e, List.mem_cons_self e rest, he.1, he.2.1, he.2.2.1,
            he.2.2.2.1, he.2.2.2.2⟩
      · obtain ⟨e2, he2, hrest⟩ := ho
        exact Or.inr ⟨e2, List.mem_cons_of_mem _ he2, hrest⟩

theorem electInit_inv : electInv electInit (fun _ _ _ => False) := by
  intro v d
  refine ⟨fun _ => rfl, List.nodup_nil, ?_, ?_⟩ <;> intro pr hpr <;> cases hpr

/-- C3: the fallback leader emits a DecisionFB for (view, decision) only
when it has accumulated 2f+1 ElectFB votes for exactly that pair — every
emitted DecisionFB carries 2f+1 signatures with pairwise distinct replica
ids, each stemming from a verified ElectFB vote for exactly that (view,
decision) — and over any sequence of votes it emits at most one DecisionFB
per view, no matter how many further votes arrive. -/
theorem c3_decisionfb_quorum_once (f : Nat) (events : List ElectVote) :
    (∀ v, (((electRun f electInit events).snd).filter
        (fun em => em.view == v)).length ≤ 1)
    ∧ (∀ em ∈ (electRun f electInit events).snd,
        em.sigs.length = 2 * f + 1 ∧ (em.sigs.map Prod.fst).Nodup ∧
        ∀ pr ∈ em.sigs, voteOrigin events em.view em.dec pr) := by
  constructor
  · intro v
    exact electRun_once_per_view f v events electInit
  · intro em hem
    have h := electRun_emit_spec f events electInit _ electInit_inv em hem
    refine ⟨h.1, h.2.1, ?_⟩
    intro pr hpr
    rcases h.2.2 pr hpr with hF | ho
    · exact hF.elim
    · exact ho

/-- C3 witness: with f = 0, two verified votes for view 1 produce at most
one DecisionFB for view 1 (the first vote completes the 2f+1 = 1 quorum,
the second finds the view closed). -/
theorem c3_decisionfb_quorum_once_witness :
    (((electRun 0 electInit
        [{ view := 1, dec := CommitDecision.COMMIT, pid := 7, sig := 99, valid := true },
         { view := 1, dec := CommitDecision.COMMIT, pid := 8, sig := 98, valid := true }]).snd).filter
      (fun em => em.view == 1)).length ≤ 1 :=
  (c3_decisionfb_quorum_once 0
    [{ view := 1, dec := CommitDecision.COMMIT, pid := 7, sig := 99, valid := true },
     { view := 1, dec := CommitDecision.COMMIT, pid := 8, sig := 98, valid := true }]).1 1

end Indicus
